import Mathlib

/-!
Verification development for the rlox repository: a tree-walking evaluator
(`src/src/eval.rs`) and a bytecode compiler plus stack VM
(`src/vm/src/compile.rs`, `src/vm/src/vm.rs`) for the Lox language, together
with the recursive-descent statement parser (`src/src/parser/mod.rs`).

Modelling conventions, used throughout:
* Lox numbers are IEEE-754 doubles in the source.  Every claim checked here
  involves only small integer arithmetic and order comparisons, on which
  double arithmetic is exact, so numbers are embedded as `ℚ`.  No claim
  depends on NaN, infinities, or rounding.
* Machine sizes (`u8`, `u16`, `usize`) are embedded as `Nat` with explicit
  `% 256` / `% 65536` where the source truncates.
* Rust panics, `expect`/`unwrap` failures and `unimplemented!` are embedded
  as distinguished error values of `Except`.
* Several support files of the repository are not under `src/`
  (`environment.rs`, `errors.rs`, `value/mod.rs`, `scanner.rs`,
  `parser/ast.rs`, `vm/src/chunk.rs`, `vm/src/gc/value.rs`,
  `vm/src/gc/arena.rs`); the definitions standing in for them are marked
  `Modelled from the spec:` and follow spec.md.
-/

deriving instance DecidableEq for Except

namespace RLox

/-! ## Abstract syntax (parser::ast)

`parser/ast.rs` is not under `src/`.  Modelled from the spec: §3 and §4.2
give the AST shape, and the exhaustive matches in `eval.rs` and
`compile.rs` list the variants.  Variable references carry either `Global`
or `Local(depth)` (spec §3 "Scope resolution"), attached by the resolver;
the interpreter crate's AST carries only the name and ignores the scope.
-/

inductive Scope where
  | global : Scope
  | loc (depth : Nat) : Scope
deriving DecidableEq, Repr

structure Variable where
  name : String
  sc : Scope
deriving DecidableEq, Repr

inductive Lit where
  | nil : Lit
  | tru : Lit
  | fls : Lit
  | num (n : ℚ) : Lit
  | str (s : String) : Lit
deriving DecidableEq, Repr

inductive BinaryOperator where
  | plus | minus | star | slash
  | greaterThan | greaterThanEq | lessThan | lessThanEq
  | equal | bangEq
deriving DecidableEq, Repr

inductive UnaryOperator where
  | minus | bang
deriving DecidableEq, Repr

inductive LogicalOperator where
  | andOp | orOp
deriving DecidableEq, Repr

inductive Expr where
  | binary (op : BinaryOperator) (lhs rhs : Expr)
  | grouping (e : Expr)
  | literal (l : Lit)
  | unary (op : UnaryOperator) (e : Expr)
  | logical (op : LogicalOperator) (lhs rhs : Expr)
  | var (v : Variable)
  | assign (v : Variable) (e : Expr)
  | call (callee : Expr) (args : List Expr)
deriving Repr

inductive Stmt where
  | expr (e : Expr)
  | print (e : Expr)
  | varDecl (v : Variable) (init : Expr)
  | block (stmts : List Stmt)
  | ifStmt (cond : Expr) (thenClause : Stmt) (elseClause : Option Stmt)
  | whileStmt (cond : Expr) (body : Stmt)
  | function
  | ret (e : Expr)
deriving Repr

/-! ## Evaluator values (interpreter crate)

`value/mod.rs` is not under `src/`.  Modelled from the spec: §3 "Value"
lists nil, booleans, numbers, strings; `eval.rs` additionally uses
`Value::Void` as the result of statements.  Truthiness (§3): `false` and
`nil` are falsy, everything else is truthy.  Display (§6): numbers render
integers without a fractional part, strings render raw, keywords render
literally.
-/

inductive Value where
  | nil : Value
  | tru : Value
  | fls : Value
  | num (n : ℚ) : Value
  | str (s : String) : Value
  | void : Value
deriving DecidableEq, Repr

def Value.truthy : Value → Bool
  | .fls => false
  | .nil => false
  | _ => true

/-- Modelled from the spec: §6 value display.  Integers render without a
fractional part; every number appearing in a checked claim is an integer. -/
def dispNum (q : ℚ) : String :=
  if q.den = 1 then toString q.num else toString q

def Value.display : Value → String
  | .nil => "nil"
  | .tru => "true"
  | .fls => "false"
  | .num n => dispNum n
  | .str s => s
  | .void => "void"

/-! ## Environment (interpreter crate)

`environment.rs` is not under `src/`.  Modelled from the spec: §3
"Environment (evaluator only)": a chain of frames mapping names to values;
`extend` produces a child frame keeping the parent as back-reference;
`lookup` walks parentward; `bind` creates in innermost; `rebind` walks
parentward and mutates the nearest binding, failing when absent.  A frame
is an association list whose most recent insertion wins, and the chain is
the nonempty list of frames, innermost first.
-/

def Frame := List (String × Value)
deriving DecidableEq

/-- The chain is nonempty by construction: `Environment::new` creates the
root frame and `extend`/`parent` keep at least one. -/
structure Env where
  top : Frame
  rest : List Frame
deriving DecidableEq

/-- The chain as a list, innermost frame first. -/
def Env.frames (e : Env) : List Frame := e.top :: e.rest

def Env.new : Env := ⟨[], []⟩

def Env.extend (e : Env) : Env := ⟨[], e.top :: e.rest⟩

/-- `Environment::parent`: `None` for the root environment. -/
def Env.parent (e : Env) : Option Env :=
  match e.rest with
  | [] => none
  | g :: r => some ⟨g, r⟩

def Frame.get (f : Frame) (n : String) : Option Value :=
  (List.lookup n f : Option Value)

def lookupFrames (n : String) : List Frame → Option Value
  | [] => none
  | f :: rest =>
    match f.get n with
    | some v => some v
    | none => lookupFrames n rest

/-- `lookup` walks parentward. -/
def Env.lookup (e : Env) (n : String) : Option Value :=
  lookupFrames n e.frames

/-- `bind` inserts into the innermost frame. -/
def Env.bind (e : Env) (n : String) (v : Value) : Env :=
  ⟨(n, v) :: e.top, e.rest⟩

def Frame.setFirst (f : Frame) (n : String) (v : Value) : Frame :=
  match f with
  | [] => []
  | (k, w) :: rest =>
    if k = n then (n, v) :: rest else (k, w) :: Frame.setFirst rest n v

def Frame.contains (f : Frame) (n : String) : Bool :=
  (f.get n).isSome

def rebindFrames (n : String) (v : Value) : List Frame → Option (List Frame)
  | [] => none
  | f :: rest =>
    if f.contains n then some (f.setFirst n v :: rest)
    else match rebindFrames n v rest with
      | some rest' => some (f :: rest')
      | none => none

/-- `rebind` mutates the nearest existing binding, returning whether one
was found. -/
def Env.rebind (e : Env) (n : String) (v : Value) : Bool × Env :=
  match rebindFrames n v e.frames with
  | some (f :: fs) => (true, ⟨f, fs⟩)
  | some [] => (false, e)
  | none => (false, e)

/-! ## Evaluation context (`eval.rs`, `StandardContext`) -/

structure Ctx where
  env : Env
  output : List String
deriving DecidableEq

def Ctx.new : Ctx := ⟨Env.new, []⟩

/-- `StandardContext::push_env`: replace the environment by a child. -/
def Ctx.pushEnv (c : Ctx) : Ctx := { c with env := c.env.extend }

/-- `StandardContext::pop_env`: restore the parent when one exists. -/
def Ctx.popEnv (c : Ctx) : Ctx :=
  match c.env.parent with
  | some p => { c with env := p }
  | none => c

def Ctx.println (c : Ctx) (v : Value) : Ctx :=
  { c with output := c.output ++ [v.display] }

/-! ## The tree-walking evaluator (`eval.rs`)

Evaluation threads the mutable context (`&mut Context` in the source)
through every call, so results are a pair of the updated context and an
`Except`: Rust `?`-propagation of an `Err` leaves the context mutations in
place, which the pair captures.  `unimplemented!` (a panic) is the
distinguished error `panicked`.  Statements `Return` and `Function`, and
the `Call` expression, do not exist in the interpreter crate's AST
(`eval.rs` matches exhaustively without them); they map to the error
`notInInterpreterAst` and appear in no theorem about the evaluator.
-/

inductive RtErr where
  /-- `ErrorKind::UndefinedVariable` -/
  | undefinedVariable (n : String)
  /-- the string errors of `numeric_binary_op!` / `comparison_op!` /
  unary minus: an operand had the wrong type -/
  | invalidOperand
  /-- `unimplemented!` aborts: a panic, not a catchable error -/
  | panicked
  /-- the statement or expression is not representable in the interpreter
  crate's AST -/
  | notInInterpreterAst
  /-- artifact of the fuel-based embedding of the `while` loop; a run that
  returns this did not converge within the given fuel -/
  | outOfFuel
deriving DecidableEq, Repr

abbrev EvalRes := Ctx × Except RtErr Value

/-- `numeric_binary_op!(op, lhs, rhs)` in `eval.rs` (the error messages of
the three failure arms are collapsed into `invalidOperand`). -/
def numericBinaryOp (f : ℚ → ℚ → ℚ) : Value → Value → Except RtErr Value
  | .num a, .num b => .ok (.num (f a b))
  | .num _, _ => .error .invalidOperand
  | _, .num _ => .error .invalidOperand
  | _, _ => .error .invalidOperand

/-- `comparison_op!(op, lhs, rhs)` in `eval.rs`. -/
def comparisonOp (p : ℚ → ℚ → Prop) [DecidableRel p] :
    Value → Value → Except RtErr Value
  | .num a, .num b => if p a b then .ok .tru else .ok .fls
  | _, _ => .error .invalidOperand

/-- `impl Eval for Binary`, after both operands have been evaluated.
`==` and `!=` hit `unimplemented!("==, !=")`. -/
def binaryOpEval (op : BinaryOperator) (lhs rhs : Value) :
    Except RtErr Value :=
  match op with
  | .plus =>
    match lhs, rhs with
    | .str a, .str b => .ok (.str (a ++ b))
    | a, b => numericBinaryOp (· + ·) a b
  | .minus => numericBinaryOp (· - ·) lhs rhs
  | .star => numericBinaryOp (· * ·) lhs rhs
  | .slash => numericBinaryOp (· / ·) lhs rhs
  | .greaterThan => comparisonOp (· > ·) lhs rhs
  | .greaterThanEq => comparisonOp (· ≥ ·) lhs rhs
  | .lessThan => comparisonOp (· < ·) lhs rhs
  | .lessThanEq => comparisonOp (· ≤ ·) lhs rhs
  | .equal => .error .panicked
  | .bangEq => .error .panicked

def Lit.toValue : Lit → Value
  | .nil => .nil
  | .tru => .tru
  | .fls => .fls
  | .num n => .num n
  | .str s => .str s

/-- `impl Eval for Expr` together with the `Binary`, `Logical`, `Unary`
and `Value` impls.  Expressions contain no loops, so this is structural. -/
def evalExpr : Expr → Ctx → EvalRes
  | .grouping inner, ctx => evalExpr inner ctx
  | .logical op lhs rhs, ctx =>
    match evalExpr lhs ctx with
    | (c1, .error e) => (c1, .error e)
    | (c1, .ok lv) =>
      let shortcircuit :=
        match op with
        | .andOp => !lv.truthy
        | .orOp => lv.truthy
      if shortcircuit then (c1, .ok lv) else evalExpr rhs c1
  | .binary op lhs rhs, ctx =>
    match evalExpr lhs ctx with
    | (c1, .error e) => (c1, .error e)
    | (c1, .ok lv) =>
      match evalExpr rhs c1 with
      | (c2, .error e) => (c2, .error e)
      | (c2, .ok rv) => (c2, binaryOpEval op lv rv)
  | .unary op inner, ctx =>
    match evalExpr inner ctx with
    | (c1, .error e) => (c1, .error e)
    | (c1, .ok v) =>
      match op with
      | .minus =>
        match v with
        | .num n => (c1, .ok (.num ((-1 : ℚ) * n)))
        | _ => (c1, .error .invalidOperand)
      | .bang => (c1, .ok (if v.truthy then .fls else .tru))
  | .literal l, ctx => (ctx, .ok l.toValue)
  | .var v, ctx =>
    match ctx.env.lookup v.name with
    | none => (ctx, .error (.undefinedVariable v.name))
    | some val => (ctx, .ok val)
  | .assign v e, ctx =>
    match evalExpr e ctx with
    | (c1, .error err) => (c1, .error err)
    | (c1, .ok lv) =>
      match c1.env.rebind v.name lv with
      | (true, env') => ({ c1 with env := env' }, .ok lv)
      | (false, _) => (c1, .error (.undefinedVariable v.name))
  | .call _ _, ctx => (ctx, .error .notInInterpreterAst)

mutual

/-- `impl Eval for Stmt` and `impl Eval for &[Stmt]`.  The `while` loop of
the source is embedded with fuel; every recursive call decreases it. -/
def evalStmt : Nat → Stmt → Ctx → EvalRes
  | 0, _, ctx => (ctx, .error .outOfFuel)
  | fuel + 1, stmt, ctx =>
    match stmt with
    | .expr e =>
      match evalExpr e ctx with
      | (c1, .error err) => (c1, .error err)
      | (c1, .ok _) => (c1, .ok .void)
    | .print e =>
      match evalExpr e ctx with
      | (c1, .error err) => (c1, .error err)
      | (c1, .ok v) => (c1.println v, .ok .void)
    | .varDecl v e =>
      match evalExpr e ctx with
      | (c1, .error err) => (c1, .error err)
      | (c1, .ok val) => ({ c1 with env := c1.env.bind v.name val }, .ok .void)
    | .block stmts =>
      -- the `?` inside the loop propagates errors WITHOUT reaching `pop_env`
      match evalStmtList fuel stmts ctx.pushEnv with
      | (c1, .error err) => (c1, .error err)
      | (c1, .ok _) => (c1.popEnv, .ok .void)
    | .ifStmt cond thenClause elseClause =>
      match evalExpr cond ctx with
      | (c1, .error err) => (c1, .error err)
      | (c1, .ok cv) =>
        if cv.truthy then
          match evalStmt fuel thenClause c1 with
          | (c2, .error err) => (c2, .error err)
          | (c2, .ok _) => (c2, .ok .void)
        else
          match elseClause with
          | some ec =>
            match evalStmt fuel ec c1 with
            | (c2, .error err) => (c2, .error err)
            | (c2, .ok _) => (c2, .ok .void)
          | none => (c1, .ok .void)
    | .whileStmt cond body =>
      match evalExpr cond ctx with
      | (c1, .error err) => (c1, .error err)
      | (c1, .ok cv) =>
        if cv.truthy then
          match evalStmt fuel body c1 with
          | (c2, .error err) => (c2, .error err)
          | (c2, .ok _) => evalStmt fuel (.whileStmt cond body) c2
        else (c1, .ok .void)
    | .function => (ctx, .error .notInInterpreterAst)
    | .ret _ => (ctx, .error .notInInterpreterAst)

/-- `impl Eval for &[Stmt]`: run the statements in order, stopping at the
first error. -/
def evalStmtList : Nat → List Stmt → Ctx → EvalRes
  | 0, _, ctx => (ctx, .error .outOfFuel)
  | _ + 1, [], ctx => (ctx, .ok .void)
  | fuel + 1, s :: rest, ctx =>
    match evalStmt fuel s ctx with
    | (c1, .error err) => (c1, .error err)
    | (c1, .ok _) => evalStmtList fuel rest c1

end

/-- Run a program on the tree-walking backend from a fresh context,
returning its stdout when it converges without error. -/
def interpOutput (fuel : Nat) (stmts : List Stmt) : Except RtErr (List String) :=
  match evalStmtList fuel stmts Ctx.new with
  | (c, .ok _) => .ok c.output
  | (_, .error e) => .error e

/-! ## VM values (`gc/value.rs`)

`gc/value.rs` is not under `src/`.  Modelled from the spec: §3 "Value", a
NaN-boxed 64-bit word holding a double, `nil`, a boolean, or an object
handle; the only objects the compiler ever allocates are interned strings
(`Object::String`), so the handle case is embedded as the string it
dereferences to.  Equality is raw-bit equality: doubles by IEEE equality
(exact on the integer inputs of every claim), nil/booleans structurally,
object handles by identity — interning makes handle identity coincide with
string content equality.  Truthiness: `false` and `nil` falsy, all else
truthy.  The bit-level encode/decode (`into_raw` / `from_raw`) is the
identity on values and is not modelled.
-/

inductive VmValue where
  | num (n : ℚ)
  | nil
  | tru
  | fls
  | str (s : String)
deriving DecidableEq, Repr

def VmValue.truthy : VmValue → Bool
  | .fls => false
  | .nil => false
  | _ => true

def VmValue.falsey (v : VmValue) : Bool := !v.truthy

def VmValue.display : VmValue → String
  | .num n => dispNum n
  | .nil => "nil"
  | .tru => "true"
  | .fls => "false"
  | .str s => s

def boolLit (b : Bool) : VmValue := if b then .tru else .fls

/-! ## Chunks (`chunk.rs`)

`chunk.rs` is not under `src/`.  Modelled from the spec: §3 "Chunk" — an
ordered byte sequence of opcodes and inline operands plus a constant pool
of Values (the per-byte line map, diagnostics only, is omitted).  A code
cell is one position of the byte sequence: an opcode (carrying its inline
payload for `Constant`/`Call`, exactly the payloads `compile.rs` passes
inside `Op`), a raw operand byte (jump-offset halves, constant indices and
local slots written by `emit_byte`), or the 8-byte little-endian NaN-boxed
immediate of a number literal, which round-trips through
`from_raw ∘ into_raw = id` and is therefore carried as one value cell.
`string_constant` interns: it searches the pool and appends on a miss
(spec §4.4 "interned string in the constant pool", and the source comment
"This constant should already exist, search the table.").
-/

inductive Op where
  | pop | immediate | constant (idx : Nat) | nilOp | trueOp | falseOp
  | add | subtract | multiply | divide | negate
  | notOp | equal | greaterThan | lessThan
  | jump | jumpIfFalse
  | getGlobal | setGlobal | defineGlobal | getLocal | setLocal
  | callOp (arity : Nat) | returnOp
  | printOp
deriving DecidableEq, Repr

inductive Cell where
  | op (o : Op)
  | byte (b : Nat)
  | val (v : VmValue)
deriving DecidableEq, Repr

structure Chunk where
  code : List Cell
  constants : List VmValue
deriving DecidableEq, Repr

def Chunk.empty : Chunk := ⟨[], []⟩

def Chunk.len (c : Chunk) : Nat := c.code.length

def Chunk.write (c : Chunk) (o : Op) : Chunk :=
  { c with code := c.code ++ [.op o] }

def Chunk.writeByte (c : Chunk) (b : Nat) : Chunk :=
  { c with code := c.code ++ [.byte b] }

def Chunk.writeVal (c : Chunk) (v : VmValue) : Chunk :=
  { c with code := c.code ++ [.val v] }

def Chunk.writeByteAt (c : Chunk) (idx : Nat) (b : Nat) : Chunk :=
  { c with code := c.code.set idx (.byte b) }

/-- Modelled from the spec: intern a string in the constant pool, returning
the chunk and the pool index. -/
def Chunk.stringConstant (c : Chunk) (s : String) : Chunk × Nat :=
  match c.constants.findIdx? (fun v => v == .str s) with
  | some i => (c, i)
  | none => ({ c with constants := c.constants ++ [.str s] }, c.constants.length)

/-! ## The bytecode compiler (`compile.rs`, `Compiler`)

State: the chunk under construction, the `locals` stack of
`(name, absolute depth)` pairs, and `scope_depth` (`line`, which only feeds
the omitted line map, is dropped).  The garbage collector only participates
in string interning here, which `Chunk.stringConstant` performs.  Rust
panics of the compiler (`TOO MANY LOCAL VARIABLES`, `Too many arguments.`)
are `Except` errors.
-/

inductive CErr where
  | tooManyLocals
  | tooManyArguments
deriving DecidableEq, Repr

structure CState where
  chunk : Chunk
  locals : List (String × Nat)
  scopeDepth : Nat
deriving DecidableEq, Repr

def CState.new : CState := ⟨Chunk.empty, [], 0⟩

def CState.ip (c : CState) : Nat := c.chunk.len

def CState.emit (c : CState) (o : Op) : CState :=
  { c with chunk := c.chunk.write o }

def CState.emitByte (c : CState) (b : Nat) : CState :=
  { c with chunk := c.chunk.writeByte b }

/-- `emit_jze`: opcode plus a `0xFF 0xFF` placeholder; returns the
placeholder's position. -/
def CState.emitJze (c : CState) : CState × Nat :=
  let c := { c with chunk := ((c.chunk.write .jumpIfFalse).writeByte 0xff).writeByte 0xff }
  (c, c.chunk.len - 2)

def CState.emitJmp (c : CState) : CState × Nat :=
  let c := { c with chunk := ((c.chunk.write .jump).writeByte 0xff).writeByte 0xff }
  (c, c.chunk.len - 2)

/-- `emit_jmp_to`: a backward jump with a known absolute target, split
little-endian into two bytes. -/
def CState.emitJmpTo (c : CState) (ip : Nat) : CState :=
  let lo := ip % 256
  let hi := (ip / 256) % 256
  { c with chunk := ((c.chunk.write .jump).writeByte lo).writeByte hi }

/-- `patch_jmp`: overwrite a placeholder with the current ip. -/
def CState.patchJmp (c : CState) (idx : Nat) : CState :=
  let jmp := c.ip
  let lo := jmp % 256
  let hi := (jmp / 256) % 256
  { c with chunk := (c.chunk.writeByteAt idx lo).writeByteAt (idx + 1) hi }

def CState.stringConstant (c : CState) (s : String) : CState × Nat :=
  let (ch, idx) := c.chunk.stringConstant s
  ({ c with chunk := ch }, idx)

/-- `resolve_local`: convert the reference-relative depth to an absolute
depth (`scope_depth - depth`, a `usize` subtraction), find a matching
local or append one; 255 locals is a compile panic. -/
def CState.resolveLocal (c : CState) (name : String) (depth : Nat) :
    Except CErr (CState × Nat) :=
  let d := c.scopeDepth - depth
  match c.locals.findIdx? (fun p => p.1 == name && p.2 == d) with
  | some i => .ok (c, i)
  | none =>
    if c.locals.length == 255 then .error .tooManyLocals
    else .ok ({ c with locals := c.locals ++ [(name, d)] }, c.locals.length)

/-- `emit_constant`: dedicated opcodes for the singleton literals, an
8-byte inline immediate for numbers, an interned pool constant for
strings. -/
def CState.emitConstant (c : CState) (l : Lit) : CState :=
  match l with
  | .nil => c.emit .nilOp
  | .tru => c.emit .trueOp
  | .fls => c.emit .falseOp
  | .num n => { c.emit .immediate with
      chunk := (c.emit .immediate).chunk.writeVal (.num n) }
  | .str s =>
    let (c, idx) := c.stringConstant s
    c.emit (.constant idx)

mutual

/-- `Compiler::compile_expr`.  For `>=` and `<=` the operand order is
swapped and the opcode is `LessThan` / `GreaterThan`; `!=` is `Equal`
then `Not`. -/
def compileExpr : Expr → CState → Except CErr CState
  | .binary op lhs rhs, c => do
    let c ←
      match op with
      | .greaterThanEq | .lessThanEq => do
        -- "Swap to logically equivalent arguments"
        let c ← compileExpr rhs c
        compileExpr lhs c
      | _ => do
        let c ← compileExpr lhs c
        compileExpr rhs c
    match op with
    | .plus => pure (c.emit .add)
    | .minus => pure (c.emit .subtract)
    | .star => pure (c.emit .multiply)
    | .slash => pure (c.emit .divide)
    | .equal => pure (c.emit .equal)
    | .greaterThan => pure (c.emit .greaterThan)
    | .lessThan => pure (c.emit .lessThan)
    | .greaterThanEq => pure (c.emit .lessThan)
    | .lessThanEq => pure (c.emit .greaterThan)
    | .bangEq => pure ((c.emit .equal).emit .notOp)
  | .grouping g, c => compileExpr g c
  | .literal l, c => pure (c.emitConstant l)
  | .unary op inner, c => do
    let c ← compileExpr inner c
    match op with
    | .minus => pure (c.emit .negate)
    | .bang => pure (c.emit .notOp)
  | .logical op lhs rhs, c =>
    match op with
    | .andOp => do
      -- `Compiler::and`: short-circuit over a `JumpIfFalse` that skips
      -- the `Pop` and the right-hand side
      let c ← compileExpr lhs c
      let (c, shortCircuitJmp) := c.emitJze
      let c := c.emit .pop
      let c ← compileExpr rhs c
      pure (c.patchJmp shortCircuitJmp)
    | .orOp => do
      -- `Compiler::or`: a false lhs jumps to the `Pop` before the rhs, a
      -- truthy lhs falls into a `Jump` to the end
      let c ← compileExpr lhs c
      let (c, elseJmp) := c.emitJze
      let (c, endJmp) := c.emitJmp
      let c := c.patchJmp elseJmp
      let c := c.emit .pop
      let c ← compileExpr rhs c
      pure (c.patchJmp endJmp)
  | .var v, c =>
    match v.sc with
    | .global =>
      let c := c.emit .getGlobal
      let (c, idx) := c.stringConstant v.name
      pure (c.emitByte idx)
    | .loc d => do
      let (c, idx) ← c.resolveLocal v.name d
      pure ((c.emit .getLocal).emitByte idx)
  | .assign v e, c => do
    let c ← compileExpr e c
    match v.sc with
    | .global =>
      let c := c.emit .setGlobal
      let (c, idx) := c.stringConstant v.name
      pure (c.emitByte idx)
    | .loc d => do
      let (c, idx) ← c.resolveLocal v.name d
      pure ((c.emit .setLocal).emitByte idx)
  | .call callee args, c => do
    let c ← compileExpr callee c
    let c ← compileArgs args c
    if args.length > 8 then .error .tooManyArguments
    else pure (c.emit (.callOp args.length))

def compileArgs : List Expr → CState → Except CErr CState
  | [], c => pure c
  | a :: rest, c => do
    let c ← compileExpr a c
    compileArgs rest c

end

mutual

/-- `Compiler::compile_stmt`.  `Stmt::Function` compiles to nothing (its
body in the source is entirely commented out); a global `Stmt::Var` emits
`SetGlobal` (not `DefineGlobal`) and no `Pop`; a block only adjusts
`scope_depth` (locals are not popped at block end). -/
def compileStmt : Stmt → CState → Except CErr CState
  | .print e, c => do
    let c ← compileExpr e c
    pure (c.emit .printOp)
  | .expr e, c => do
    let c ← compileExpr e c
    pure (c.emit .pop)
  | .block stmts, c => do
    let c := { c with scopeDepth := c.scopeDepth + 1 }
    let c ← compileStmtList stmts c
    pure { c with scopeDepth := c.scopeDepth - 1 }
  | .ifStmt cond thenClause elseClause, c => do
    let c ← compileExpr cond c
    let (c, elseJmp) := c.emitJze
    let c := c.emit .pop
    let c ← compileStmt thenClause c
    let (c, endJmp) := c.emitJmp
    let c := c.patchJmp elseJmp
    let c := c.emit .pop
    let c ←
      match elseClause with
      | some ec => compileStmt ec c
      | none => pure c
    pure (c.patchJmp endJmp)
  | .whileStmt cond body, c => do
    let ip := c.ip
    let c ← compileExpr cond c
    let (c, endJmp) := c.emitJze
    let c := c.emit .pop
    let c ← compileStmt body c
    let c := c.emitJmpTo ip
    pure (c.patchJmp endJmp)
  | .function, c => pure c
  | .ret e, c => do
    let c ← compileExpr e c
    pure (c.emit .returnOp)
  | .varDecl v init, c => do
    let c ← compileExpr init c
    match v.sc with
    | .global =>
      let c := c.emit .setGlobal
      let (c, idx) := c.stringConstant v.name
      pure (c.emitByte idx)
    | .loc d => do
      let (c, idx) ← c.resolveLocal v.name d
      pure ((c.emit .setLocal).emitByte idx)

def compileStmtList : List Stmt → CState → Except CErr CState
  | [], c => pure c
  | s :: rest, c => do
    let c ← compileStmt s c
    compileStmtList rest c

end

/-- `Compiler::compile`: fold the statements over a fresh compiler. -/
def compileProgram (stmts : List Stmt) : Except CErr Chunk := do
  let c ← compileStmtList stmts CState.new
  pure c.chunk

/-! ## The virtual machine (`vm.rs`)

State: the main chunk, the value stack (index 0 is the bottom; `push`
appends), the call-frame stack (head is the current frame; the function
handle of a frame is elided because `Stmt::Function` compiles to nothing,
so no function object other than "main" ever exists and every executable
frame runs the main chunk), the globals map (a `HashMap` embedded as an
association list whose newest insertion wins) and the printed output.
Every Rust panic of the VM (`unwrap`/`expect` failures,
`CallFrame::new` on a non-function, "Cannot return from top-level.") is a
distinguished fatal error.  Arithmetic and ordering on non-number operands
would reinterpret NaN-boxed tag bits as doubles; modelled from the spec:
§4.3 requires number operands, so these are the fatal `numericOperands`
error (no checked claim exercises them).
-/

inductive VmErr where
  /-- `self.stack.pop().unwrap()` or `peek` on an empty stack -/
  | stackUnderflow
  /-- `get_global`: `.expect("undefined global")` -/
  | undefinedGlobal (n : String)
  /-- `GET_GLOBAL`/`SET_GLOBAL`/`DEF_GLOBAL` constant was not a string -/
  | globalNotAString
  /-- `get_constant(idx).unwrap()` on a missing pool entry -/
  | badConstant
  /-- decoding a cell that is not an opcode, or reading operand cells of
  the wrong shape -/
  | invalidOpcode
  /-- `ret`: panic "Cannot return from top-level." -/
  | cannotReturnFromTopLevel
  /-- `call`: panic "Callee was not an object" -/
  | calleeNotAnObject
  /-- `CallFrame::new`: panic "Callframe must be constructed from a
  function" -/
  | calleeNotAFunction
  /-- `self.frames.last().expect("frames to be nonempty")` -/
  | noFrames
  /-- local slot access out of the stack (a Rust index panic) -/
  | badLocalSlot
  /-- arithmetic or ordering on non-number operands (see header note) -/
  | numericOperands
  /-- artifact of the fuel-based embedding of the dispatch loop -/
  | outOfFuel
deriving DecidableEq, Repr

structure VmFrame where
  ip : Nat
  stackStart : Nat
deriving DecidableEq, Repr

structure VmState where
  chunk : Chunk
  stack : List VmValue
  frames : List VmFrame
  globals : List (String × VmValue)
  output : List String
deriving DecidableEq, Repr

/-- `VM::new` followed by the first frame construction: one frame for the
main function, `ip = 0`, `stack_start = 0`. -/
def VmState.initial (chunk : Chunk) : VmState :=
  ⟨chunk, [], [⟨0, 0⟩], [], []⟩

def VmState.push (st : VmState) (v : VmValue) : VmState :=
  { st with stack := st.stack ++ [v] }

def VmState.pop (st : VmState) : Except VmErr (VmValue × VmState) :=
  match st.stack.getLast? with
  | none => .error .stackUnderflow
  | some v => .ok (v, { st with stack := st.stack.dropLast })

def VmState.peek (st : VmState) : Except VmErr VmValue :=
  match st.stack.getLast? with
  | none => .error .stackUnderflow
  | some v => .ok v

def VmState.curFrame (st : VmState) : Except VmErr VmFrame :=
  match st.frames with
  | [] => .error .noFrames
  | f :: _ => .ok f

def VmState.setIp (st : VmState) (ip : Nat) : VmState :=
  match st.frames with
  | [] => st
  | f :: rest => { st with frames := { f with ip := ip } :: rest }

/-- `CallFrame::read_byte` at the cell level: fetch the cell at the current
ip and advance (indexing past the chunk is a Rust panic). -/
def VmState.readCell (st : VmState) : Except VmErr (Cell × VmState) := do
  let f ← st.curFrame
  match st.chunk.code.get? f.ip with
  | none => .error .invalidOpcode
  | some cell => .ok (cell, st.setIp (f.ip + 1))

/-- `CallFrame::read_byte` where the operand must be a raw byte. -/
def VmState.readByte (st : VmState) : Except VmErr (Nat × VmState) := do
  let (cell, st) ← st.readCell
  match cell with
  | .byte b => .ok (b, st)
  | _ => .error .invalidOpcode

/-- `CallFrame::read_u16`: two bytes, low then high. -/
def VmState.readU16 (st : VmState) : Except VmErr (Nat × VmState) := do
  let (lo, st) ← st.readByte
  let (hi, st) ← st.readByte
  .ok (lo + hi * 256, st)

/-- `read_constant`: a byte operand indexing the pool
(`get_constant(idx).unwrap()`). -/
def VmState.readConstant (st : VmState) : Except VmErr (VmValue × VmState) := do
  let (idx, st) ← st.readByte
  match st.chunk.constants.get? idx with
  | none => .error .badConstant
  | some v => .ok (v, st)

/-- HashMap lookup: newest insertion wins. -/
def globalsGet (g : List (String × VmValue)) (k : String) : Option VmValue :=
  (List.lookup k g : Option VmValue)

/-- HashMap insert. -/
def globalsInsert (g : List (String × VmValue)) (k : String) (v : VmValue) :
    List (String × VmValue) :=
  (k, v) :: g

/-- `VM::eq` — raw-bit equality of NaN-boxed words (see `VmValue` notes). -/
def vmEq (a b : VmValue) : Bool := a == b

/-- One arithmetic step (`add`/`sub`/`mul`/`div`). -/
def VmState.arith (st : VmState) (f : ℚ → ℚ → ℚ) : Except VmErr VmState := do
  let (b, st) ← st.pop
  let (a, st) ← st.pop
  match a, b with
  | .num x, .num y => .ok (st.push (.num (f x y)))
  | _, _ => .error .numericOperands

/-- One comparison step (`gt`/`lt`). -/
def VmState.cmp (st : VmState) (p : ℚ → ℚ → Prop) [DecidableRel p] :
    Except VmErr VmState := do
  let (b, st) ← st.pop
  let (a, st) ← st.pop
  match a, b with
  | .num x, .num y => .ok (st.push (boolLit (decide (p x y))))
  | _, _ => .error .numericOperands

/-- Execute a single decoded opcode (the arms of `decode_op!` calling the
`VM` methods; the opcode has been fetched and the ip already points past
it). -/
def VmState.execOp (st : VmState) (o : Op) : Except VmErr VmState := do
  match o with
  | .pop => do
    let (_, st) ← st.pop
    .ok st
  | .immediate => do
    -- `read_u64` + `Value::from_raw`: the decoded immediate value cell
    let (cell, st) ← st.readCell
    match cell with
    | .val v => .ok (st.push v)
    | _ => .error .invalidOpcode
  | .constant idx =>
    match st.chunk.constants.get? idx with
    | none => .error .badConstant
    | some v => .ok (st.push v)
  | .nilOp => .ok (st.push .nil)
  | .trueOp => .ok (st.push .tru)
  | .falseOp => .ok (st.push .fls)
  | .add => st.arith (· + ·)
  | .subtract => st.arith (· - ·)
  | .multiply => st.arith (· * ·)
  | .divide => st.arith (· / ·)
  | .negate => do
    let (a, st) ← st.pop
    match a with
    | .num x => .ok (st.push (.num (-x)))
    | _ => .error .numericOperands
  | .notOp => do
    let (a, st) ← st.pop
    .ok (st.push (if a.truthy then .fls else .tru))
  | .equal => do
    let (b, st) ← st.pop
    let (a, st) ← st.pop
    .ok (st.push (boolLit (vmEq a b)))
  | .greaterThan => st.cmp (· > ·)
  | .lessThan => st.cmp (· < ·)
  | .jump => do
    let (target, st) ← st.readU16
    .ok (st.setIp target)
  | .jumpIfFalse => do
    -- peeks; does not pop the condition
    let (target, st) ← st.readU16
    let v ← st.peek
    if v.falsey then .ok (st.setIp target) else .ok st
  | .getGlobal => do
    let (v, st) ← st.readConstant
    match v with
    | .str s =>
      match globalsGet st.globals s with
      | none => .error (.undefinedGlobal s)
      | some v => .ok (st.push v)
    | _ => .error .globalNotAString
  | .setGlobal => do
    let (v, st) ← st.readConstant
    match v with
    | .str s => do
      let (lhs, st) ← st.pop
      .ok ({ st with globals := globalsInsert st.globals s lhs }.push lhs)
    | _ => .error .globalNotAString
  | .defineGlobal => do
    let (v, st) ← st.readConstant
    match v with
    | .str s => do
      let (lhs, st) ← st.pop
      .ok { st with globals := globalsInsert st.globals s lhs }
    | _ => .error .globalNotAString
  | .getLocal => do
    let (idx, st) ← st.readByte
    let f ← st.curFrame
    match st.stack.get? (f.stackStart + idx) with
    | none => .error .badLocalSlot
    | some v => .ok (st.push v)
  | .setLocal => do
    let (idx, st) ← st.readByte
    let f ← st.curFrame
    let v ← st.peek
    if f.stackStart + idx < st.stack.length then
      .ok { st with stack := st.stack.set (f.stackStart + idx) v }
    else .error .badLocalSlot
  | .callOp arity => do
    -- callee at stack_top - (arity + 1); only string objects exist, so the
    -- object branch always hits the `CallFrame::new` non-function panic
    if st.stack.length < arity + 2 then .error .stackUnderflow
    else
      let stackStart := st.stack.length - 1 - (arity + 1)
      match st.stack.get? stackStart with
      | none => .error .stackUnderflow
      | some (.str _) => .error .calleeNotAFunction
      | some _ => .error .calleeNotAnObject
  | .returnOp =>
    -- `VM::ret` pops the frame and truncates the stack, then
    -- unconditionally panics — the truncated state is never observable
    .error .cannotReturnFromTopLevel
  | .printOp => do
    let (v, st) ← st.pop
    .ok { st with output := st.output ++ [v.display] }

/-- One iteration of the dispatch loop: fetch the cell at the current ip
(the loop guard has established `ip < l`), decode, execute. -/
def VmState.stepInstr (st : VmState) : Except VmErr VmState := do
  let (cell, st) ← st.readCell
  match cell with
  | .op o => st.execOp o
  | _ => .error .invalidOpcode

/-- `VM::run`: `l` is the main chunk's length, read once before the loop;
while the current frame's ip is below `l`, execute one instruction. -/
def runLoop : Nat → Nat → VmState → Except VmErr VmState
  | 0, _, _ => .error .outOfFuel
  | fuel + 1, l, st => do
    let f ← st.curFrame
    if f.ip < l then do
      let st' ← st.stepInstr
      runLoop fuel l st'
    else .ok st

def runVM (fuel : Nat) (chunk : Chunk) : Except VmErr VmState :=
  runLoop fuel chunk.code.length (VmState.initial chunk)

/-- Compile a program and run it on the VM, returning its stdout. -/
def vmOutput (fuel : Nat) (stmts : List Stmt) :
    Except CErr (Except VmErr (List String)) := do
  let chunk ← compileProgram stmts
  pure ((runVM fuel chunk).map VmState.output)

/-! ## Tokens (`parser/scanner.rs`)

The scanner is not under `src/`.  Modelled from the spec: §3 "Token" — a
token type among punctuation, operators, literals, keywords and EOF, plus
the original lexeme (the `value` field, which the parser reads for
identifiers) — the line number, used only in diagnostics, is omitted.  The
parser is fed a well-scanned token list; scan-error tokens are out of
scope of every claim about the parser.
-/

inductive Kw where
  | andKw | classKw | elseKw | falseKw | funKw | forKw | ifKw | nilKw
  | orKw | printKw | returnKw | superKw | thisKw | trueKw | varKw | whileKw
deriving DecidableEq, Repr

inductive TokType where
  | leftParen | rightParen | leftBrace | rightBrace | comma | dot | semicolon
  | plus | minus | star | slash
  | bang | bangEq | equal | equalEq
  | greaterThan | greaterThanEq | lessThan | lessThanEq
  | identifier
  | string (s : String)
  | number (n : ℚ)
  | keyword (k : Kw)
  | eof
deriving DecidableEq, Repr

structure Token where
  ty : TokType
  value : String
deriving DecidableEq, Repr

/-- Stand-in for `TokenType`'s `Display` (the scanner is not under `src/`);
only fed into `SyntaxError::Missing`, never inspected by a claim. -/
def TokType.name : TokType → String
  | .leftParen => "LeftParen"
  | .rightParen => "RightParen"
  | .leftBrace => "LeftBrace"
  | .rightBrace => "RightBrace"
  | .comma => "Comma"
  | .dot => "Dot"
  | .semicolon => "Semicolon"
  | .plus => "Plus"
  | .minus => "Minus"
  | .star => "Star"
  | .slash => "Slash"
  | .bang => "Bang"
  | .bangEq => "BangEq"
  | .equal => "Equal"
  | .equalEq => "EqualEq"
  | .greaterThan => "GreaterThan"
  | .greaterThanEq => "GreaterThanEq"
  | .lessThan => "LessThan"
  | .lessThanEq => "LessThanEq"
  | .identifier => "Identifier"
  | .string _ => "String"
  | .number _ => "Number"
  | .keyword _ => "Keyword"
  | .eof => "EOF"

/-! ## The statement parser (`parser/mod.rs`)

The parser owns a peekable token stream; every production returns the
remaining stream both on success and on failure (the Rust parser mutates
the stream in place, so an `Err` leaves it wherever the failing production
stopped).  Recursive-descent recursion is embedded with fuel; `fuelOut`
marks exhaustion and appears in no claim's conclusion.  Variable
references are produced with scope `Global`; the resolver that rewrites
scopes before bytecode compilation is not under `src/` (spec §3 "Scope
resolution") and no parser claim depends on scopes.
-/

inductive SyntaxErr where
  /-- `SyntaxError::Missing(expected, context)` -/
  | missing (expected : String) (before : String)
  | invalidAssignment
  | primaryFailure
  | unexpectedEOF
deriving DecidableEq, Repr

inductive PRes (α : Type) where
  | ok (a : α) (rest : List Token)
  | err (e : SyntaxErr) (rest : List Token)
  | fuelOut
deriving Repr

/-- `Parser::peek_type`: EOF when the stream is exhausted. -/
def peekType (ts : List Token) : TokType :=
  match ts with
  | [] => .eof
  | t :: _ => t.ty

/-- `Parser::advance`: `UnexpectedEOF` when the stream is exhausted. -/
def advanceTok (ts : List Token) : PRes Token :=
  match ts with
  | [] => .err .unexpectedEOF []
  | t :: rest => .ok t rest

/-- `Parser::expect`. -/
def expectTok (ty : TokType) (before : String) (ts : List Token) : PRes Token :=
  if peekType ts = ty then advanceTok ts
  else .err (.missing ty.name before) ts

/-- `TokenType::into_binary` (in the missing `ast.rs`), restricted to the
patterns the binary rules match. -/
def TokType.intoBinary : TokType → Option BinaryOperator
  | .bangEq => some .bangEq
  | .equalEq => some .equal
  | .greaterThan => some .greaterThan
  | .greaterThanEq => some .greaterThanEq
  | .lessThan => some .lessThan
  | .lessThanEq => some .lessThanEq
  | .plus => some .plus
  | .minus => some .minus
  | .slash => some .slash
  | .star => some .star
  | _ => none

def TokType.intoLogical : TokType → Option LogicalOperator
  | .keyword .orKw => some .orOp
  | .keyword .andKw => some .andOp
  | _ => none

/-- Whether the equality rule's `while` loop continues on this lookahead. -/
def isEqualityOp (t : TokType) : Bool :=
  t = .bangEq || t = .equalEq

def isComparisonOp (t : TokType) : Bool :=
  t = .greaterThan || t = .greaterThanEq || t = .lessThan || t = .lessThanEq

def isTermOp (t : TokType) : Bool :=
  t = .plus || t = .minus

def isFactorOp (t : TokType) : Bool :=
  t = .slash || t = .star

mutual

/-- `Parser::primary`. -/
def parsePrimary : Nat → List Token → PRes Expr
  | 0, _ => .fuelOut
  | fuel + 1, ts =>
    match peekType ts with
    | .keyword .nilKw =>
      match advanceTok ts with
      | .ok _ rest => .ok (.literal .nil) rest
      | .err e rest => .err e rest
      | .fuelOut => .fuelOut
    | .keyword .trueKw =>
      match advanceTok ts with
      | .ok _ rest => .ok (.literal .tru) rest
      | .err e rest => .err e rest
      | .fuelOut => .fuelOut
    | .keyword .falseKw =>
      match advanceTok ts with
      | .ok _ rest => .ok (.literal .fls) rest
      | .err e rest => .err e rest
      | .fuelOut => .fuelOut
    | .string s =>
      match advanceTok ts with
      | .ok _ rest => .ok (.literal (.str s)) rest
      | .err e rest => .err e rest
      | .fuelOut => .fuelOut
    | .number n =>
      match advanceTok ts with
      | .ok _ rest => .ok (.literal (.num n)) rest
      | .err e rest => .err e rest
      | .fuelOut => .fuelOut
    | .leftParen =>
      match advanceTok ts with
      | .ok _ rest =>
        match parseExpression fuel rest with
        | .ok e rest =>
          match expectTok .rightParen "expression" rest with
          | .ok _ rest => .ok (.grouping e) rest
          | .err er rest => .err er rest
          | .fuelOut => .fuelOut
        | .err er rest => .err er rest
        | .fuelOut => .fuelOut
      | .err e rest => .err e rest
      | .fuelOut => .fuelOut
    | .identifier =>
      match advanceTok ts with
      | .ok tok rest => .ok (.var ⟨tok.value, .global⟩) rest
      | .err e rest => .err e rest
      | .fuelOut => .fuelOut
    | _ => .err .primaryFailure ts

/-- `Parser::unary`. -/
def parseUnary : Nat → List Token → PRes Expr
  | 0, _ => .fuelOut
  | fuel + 1, ts =>
    match peekType ts with
    | .bang =>
      match advanceTok ts with
      | .ok _ rest =>
        match parseUnary fuel rest with
        | .ok u rest => .ok (.unary .bang u) rest
        | .err e rest => .err e rest
        | .fuelOut => .fuelOut
      | .err e rest => .err e rest
      | .fuelOut => .fuelOut
    | .minus =>
      match advanceTok ts with
      | .ok _ rest =>
        match parseUnary fuel rest with
        | .ok u rest => .ok (.unary .minus u) rest
        | .err e rest => .err e rest
        | .fuelOut => .fuelOut
      | .err e rest => .err e rest
      | .fuelOut => .fuelOut
    | _ => parsePrimary fuel ts

/-- `factor → unary ( ( "/" | "*" ) unary )*` — the `__binary_rule!` loop. -/
def parseFactor : Nat → List Token → PRes Expr
  | 0, _ => .fuelOut
  | fuel + 1, ts =>
    match parseUnary fuel ts with
    | .ok lhs rest => factorLoop fuel lhs rest
    | .err e rest => .err e rest
    | .fuelOut => .fuelOut

def factorLoop : Nat → Expr → List Token → PRes Expr
  | 0, _, _ => .fuelOut
  | fuel + 1, lhs, ts =>
    if isFactorOp (peekType ts) then
      match advanceTok ts with
      | .ok tok rest =>
        match parseUnary fuel rest with
        | .ok rhs rest =>
          match tok.ty.intoBinary with
          | some op => factorLoop fuel (.binary op lhs rhs) rest
          | none => .fuelOut
        | .err e rest => .err e rest
        | .fuelOut => .fuelOut
      | .err e rest => .err e rest
      | .fuelOut => .fuelOut
    else .ok lhs ts

def parseTerm : Nat → List Token → PRes Expr
  | 0, _ => .fuelOut
  | fuel + 1, ts =>
    match parseFactor fuel ts with
    | .ok lhs rest => termLoop fuel lhs rest
    | .err e rest => .err e rest
    | .fuelOut => .fuelOut

def termLoop : Nat → Expr → List Token → PRes Expr
  | 0, _, _ => .fuelOut
  | fuel + 1, lhs, ts =>
    if isTermOp (peekType ts) then
      match advanceTok ts with
      | .ok tok rest =>
        match parseFactor fuel rest with
        | .ok rhs rest =>
          match tok.ty.intoBinary with
          | some op => termLoop fuel (.binary op lhs rhs) rest
          | none => .fuelOut
        | .err e rest => .err e rest
        | .fuelOut => .fuelOut
      | .err e rest => .err e rest
      | .fuelOut => .fuelOut
    else .ok lhs ts

def parseComparison : Nat → List Token → PRes Expr
  | 0, _ => .fuelOut
  | fuel + 1, ts =>
    match parseTerm fuel ts with
    | .ok lhs rest => comparisonLoop fuel lhs rest
    | .err e rest => .err e rest
    | .fuelOut => .fuelOut

def comparisonLoop : Nat → Expr → List Token → PRes Expr
  | 0, _, _ => .fuelOut
  | fuel + 1, lhs, ts =>
    if isComparisonOp (peekType ts) then
      match advanceTok ts with
      | .ok tok rest =>
        match parseTerm fuel rest with
        | .ok rhs rest =>
          match tok.ty.intoBinary with
          | some op => comparisonLoop fuel (.binary op lhs rhs) rest
          | none => .fuelOut
        | .err e rest => .err e rest
        | .fuelOut => .fuelOut
      | .err e rest => .err e rest
      | .fuelOut => .fuelOut
    else .ok lhs ts

def parseEquality : Nat → List Token → PRes Expr
  | 0, _ => .fuelOut
  | fuel + 1, ts =>
    match parseComparison fuel ts with
    | .ok lhs rest => equalityLoop fuel lhs rest
    | .err e rest => .err e rest
    | .fuelOut => .fuelOut

def equalityLoop : Nat → Expr → List Token → PRes Expr
  | 0, _, _ => .fuelOut
  | fuel + 1, lhs, ts =>
    if isEqualityOp (peekType ts) then
      match advanceTok ts with
      | .ok tok rest =>
        match parseComparison fuel rest with
        | .ok rhs rest =>
          match tok.ty.intoBinary with
          | some op => equalityLoop fuel (.binary op lhs rhs) rest
          | none => .fuelOut
        | .err e rest => .err e rest
        | .fuelOut => .fuelOut
      | .err e rest => .err e rest
      | .fuelOut => .fuelOut
    else .ok lhs ts

def parseLogicalAnd : Nat → List Token → PRes Expr
  | 0, _ => .fuelOut
  | fuel + 1, ts =>
    match parseEquality fuel ts with
    | .ok lhs rest => logicalAndLoop fuel lhs rest
    | .err e rest => .err e rest
    | .fuelOut => .fuelOut

def logicalAndLoop : Nat → Expr → List Token → PRes Expr
  | 0, _, _ => .fuelOut
  | fuel + 1, lhs, ts =>
    if peekType ts = .keyword .andKw then
      match advanceTok ts with
      | .ok _ rest =>
        match parseEquality fuel rest with
        | .ok rhs rest => logicalAndLoop fuel (.logical .andOp lhs rhs) rest
        | .err e rest => .err e rest
        | .fuelOut => .fuelOut
      | .err e rest => .err e rest
      | .fuelOut => .fuelOut
    else .ok lhs ts

def parseLogicalOr : Nat → List Token → PRes Expr
  | 0, _ => .fuelOut
  | fuel + 1, ts =>
    match parseLogicalAnd fuel ts with
    | .ok lhs rest => logicalOrLoop fuel lhs rest
    | .err e rest => .err e rest
    | .fuelOut => .fuelOut

def logicalOrLoop : Nat → Expr → List Token → PRes Expr
  | 0, _, _ => .fuelOut
  | fuel + 1, lhs, ts =>
    if peekType ts = .keyword .orKw then
      match advanceTok ts with
      | .ok _ rest =>
        match parseLogicalAnd fuel rest with
        | .ok rhs rest => logicalOrLoop fuel (.logical .orOp lhs rhs) rest
        | .err e rest => .err e rest
        | .fuelOut => .fuelOut
      | .err e rest => .err e rest
      | .fuelOut => .fuelOut
    else .ok lhs ts

/-- `Parser::assignment`: right-associative; a non-`Var` target is
`InvalidAssignment`. -/
def parseAssignment : Nat → List Token → PRes Expr
  | 0, _ => .fuelOut
  | fuel + 1, ts =>
    match parseLogicalOr fuel ts with
    | .ok e rest =>
      if peekType rest = .equal then
        match advanceTok rest with
        | .ok _ rest =>
          match parseAssignment fuel rest with
          | .ok value rest =>
            match e with
            | .var v => .ok (.assign v value) rest
            | _ => .err .invalidAssignment rest
          | .err er rest => .err er rest
          | .fuelOut => .fuelOut
        | .err er rest => .err er rest
        | .fuelOut => .fuelOut
      else .ok e rest
    | .err e rest => .err e rest
    | .fuelOut => .fuelOut

/-- `Parser::expression`. -/
def parseExpression : Nat → List Token → PRes Expr
  | 0, _ => .fuelOut
  | fuel + 1, ts => parseAssignment fuel ts

end

mutual

/-- `Parser::declaration`. -/
def parseDeclaration : Nat → List Token → PRes Stmt
  | 0, _ => .fuelOut
  | fuel + 1, ts =>
    if peekType ts = .keyword .varKw then
      match advanceTok ts with
      | .ok _ rest => parseVarDecl fuel rest
      | .err e rest => .err e rest
      | .fuelOut => .fuelOut
    else parseStatement fuel ts

/-- `Parser::var_decl` (the `var` keyword is already consumed): a missing
initializer defaults to the literal `nil`. -/
def parseVarDecl : Nat → List Token → PRes Stmt
  | 0, _ => .fuelOut
  | fuel + 1, ts =>
    match expectTok .identifier "keyword var" ts with
    | .ok ident rest =>
      if peekType rest = .equal then
        match advanceTok rest with
        | .ok _ rest =>
          match parseExpression fuel rest with
          | .ok init rest =>
            match expectTok .semicolon "variable declaration" rest with
            | .ok _ rest => .ok (.varDecl ⟨ident.value, .global⟩ init) rest
            | .err e rest => .err e rest
            | .fuelOut => .fuelOut
          | .err e rest => .err e rest
          | .fuelOut => .fuelOut
        | .err e rest => .err e rest
        | .fuelOut => .fuelOut
      else
        match expectTok .semicolon "variable declaration" rest with
        | .ok _ rest =>
          .ok (.varDecl ⟨ident.value, .global⟩ (.literal .nil)) rest
        | .err e rest => .err e rest
        | .fuelOut => .fuelOut
    | .err e rest => .err e rest
    | .fuelOut => .fuelOut

/-- `Parser::statement`. -/
def parseStatement : Nat → List Token → PRes Stmt
  | 0, _ => .fuelOut
  | fuel + 1, ts =>
    match peekType ts with
    | .keyword .whileKw =>
      match advanceTok ts with
      | .ok _ rest => parseWhileStatement fuel rest
      | .err e rest => .err e rest
      | .fuelOut => .fuelOut
    | .keyword .printKw =>
      match advanceTok ts with
      | .ok _ rest => parsePrintStatement fuel rest
      | .err e rest => .err e rest
      | .fuelOut => .fuelOut
    | .keyword .ifKw =>
      match advanceTok ts with
      | .ok _ rest => parseIfStatement fuel rest
      | .err e rest => .err e rest
      | .fuelOut => .fuelOut
    | .keyword .forKw =>
      match advanceTok ts with
      | .ok _ rest => parseForStatement fuel rest
      | .err e rest => .err e rest
      | .fuelOut => .fuelOut
    | .leftBrace =>
      match advanceTok ts with
      | .ok _ rest => parseBlockRule fuel [] rest
      | .err e rest => .err e rest
      | .fuelOut => .fuelOut
    | _ => parseExpressionStatement fuel ts

def parsePrintStatement : Nat → List Token → PRes Stmt
  | 0, _ => .fuelOut
  | fuel + 1, ts =>
    match parseExpression fuel ts with
    | .ok value rest =>
      match expectTok .semicolon "value" rest with
      | .ok _ rest => .ok (.print value) rest
      | .err e rest => .err e rest
      | .fuelOut => .fuelOut
    | .err e rest => .err e rest
    | .fuelOut => .fuelOut

def parseIfStatement : Nat → List Token → PRes Stmt
  | 0, _ => .fuelOut
  | fuel + 1, ts =>
    match expectTok .leftParen "if" ts with
    | .ok _ rest =>
      match parseExpression fuel rest with
      | .ok cond rest =>
        match expectTok .rightParen "if condition" rest with
        | .ok _ rest =>
          match parseDeclaration fuel rest with
          | .ok thenClause rest =>
            if peekType rest = .keyword .elseKw then
              match advanceTok rest with
              | .ok _ rest =>
                match parseDeclaration fuel rest with
                | .ok elseClause rest =>
                  .ok (.ifStmt cond thenClause (some elseClause)) rest
                | .err e rest => .err e rest
                | .fuelOut => .fuelOut
              | .err e rest => .err e rest
              | .fuelOut => .fuelOut
            else .ok (.ifStmt cond thenClause none) rest
          | .err e rest => .err e rest
          | .fuelOut => .fuelOut
        | .err e rest => .err e rest
        | .fuelOut => .fuelOut
      | .err e rest => .err e rest
      | .fuelOut => .fuelOut
    | .err e rest => .err e rest
    | .fuelOut => .fuelOut

def parseWhileStatement : Nat → List Token → PRes Stmt
  | 0, _ => .fuelOut
  | fuel + 1, ts =>
    match expectTok .leftParen "while" ts with
    | .ok _ rest =>
      match parseExpression fuel rest with
      | .ok cond rest =>
        match expectTok .rightParen "while condition" rest with
        | .ok _ rest =>
          match parseStatement fuel rest with
          | .ok body rest => .ok (.whileStmt cond body) rest
          | .err e rest => .err e rest
          | .fuelOut => .fuelOut
        | .err e rest => .err e rest
        | .fuelOut => .fuelOut
      | .err e rest => .err e rest
      | .fuelOut => .fuelOut
    | .err e rest => .err e rest
    | .fuelOut => .fuelOut

/-- `Parser::for_statement`: desugars into a `while` loop. -/
def parseForStatement : Nat → List Token → PRes Stmt
  | 0, _ => .fuelOut
  | fuel + 1, ts =>
    match expectTok .leftParen "for" ts with
    | .ok _ rest =>
      let initRes : PRes (Option Stmt) :=
        match peekType rest with
        | .semicolon =>
          match advanceTok rest with
          | .ok _ rest => .ok none rest
          | .err e rest => .err e rest
          | .fuelOut => .fuelOut
        | .keyword .varKw =>
          match advanceTok rest with
          | .ok _ rest =>
            match parseVarDecl fuel rest with
            | .ok s rest => .ok (some s) rest
            | .err e rest => .err e rest
            | .fuelOut => .fuelOut
          | .err e rest => .err e rest
          | .fuelOut => .fuelOut
        | _ =>
          match parseExpressionStatement fuel rest with
          | .ok s rest => .ok (some s) rest
          | .err e rest => .err e rest
          | .fuelOut => .fuelOut
      match initRes with
      | .ok init rest =>
        let condRes : PRes Expr :=
          match peekType rest with
          | .semicolon => .ok (.literal .tru) rest
          | _ => parseExpression fuel rest
        match condRes with
        | .ok condition rest =>
          match expectTok .semicolon "for condition" rest with
          | .ok _ rest =>
            let incrRes : PRes (Option Expr) :=
              match peekType rest with
              | .rightParen => .ok none rest
              | _ =>
                match parseExpression fuel rest with
                | .ok e rest => .ok (some e) rest
                | .err e rest => .err e rest
                | .fuelOut => .fuelOut
            match incrRes with
            | .ok increment rest =>
              match expectTok .rightParen "for clause" rest with
              | .ok _ rest =>
                match parseStatement fuel rest with
                | .ok body rest =>
                  let body :=
                    match increment with
                    | some inc => Stmt.block [body, .expr inc]
                    | none => body
                  let whileLoop := Stmt.whileStmt condition body
                  match init with
                  | some i => .ok (.block [i, whileLoop]) rest
                  | none => .ok whileLoop rest
                | .err e rest => .err e rest
                | .fuelOut => .fuelOut
              | .err e rest => .err e rest
              | .fuelOut => .fuelOut
            | .err e rest => .err e rest
            | .fuelOut => .fuelOut
          | .err e rest => .err e rest
          | .fuelOut => .fuelOut
        | .err e rest => .err e rest
        | .fuelOut => .fuelOut
      | .err e rest => .err e rest
      | .fuelOut => .fuelOut
    | .err e rest => .err e rest
    | .fuelOut => .fuelOut

/-- `Parser::block` (the `{` is already consumed): loop until `}`. -/
def parseBlockRule : Nat → List Stmt → List Token → PRes Stmt
  | 0, _, _ => .fuelOut
  | fuel + 1, acc, ts =>
    if peekType ts = .rightBrace then
      match advanceTok ts with
      | .ok _ rest => .ok (.block acc) rest
      | .err e rest => .err e rest
      | .fuelOut => .fuelOut
    else
      match parseDeclaration fuel ts with
      | .ok s rest => parseBlockRule fuel (acc ++ [s]) rest
      | .err e rest => .err e rest
      | .fuelOut => .fuelOut

def parseExpressionStatement : Nat → List Token → PRes Stmt
  | 0, _ => .fuelOut
  | fuel + 1, ts =>
    match parseExpression fuel ts with
    | .ok e rest =>
      match expectTok .semicolon "value" rest with
      | .ok _ rest => .ok (.expr e) rest
      | .err er rest => .err er rest
      | .fuelOut => .fuelOut
    | .err e rest => .err e rest
    | .fuelOut => .fuelOut

end

/-- Whether `synchronize` stops before this lookahead token (the keyword
arms of its `match`, plus EOF). -/
def isSyncBoundary (t : TokType) : Bool :=
  match t with
  | .keyword .classKw | .keyword .funKw | .keyword .varKw | .keyword .forKw
  | .keyword .ifKw | .keyword .whileKw | .keyword .returnKw
  | .keyword .printKw | .eof => true
  | _ => false

/-- `Parser::synchronize`: discard tokens until just past a `;` or until
the lookahead is a statement keyword or EOF (an exhausted stream peeks as
EOF and stops the loop). -/
def synchronize : List Token → List Token
  | [] => []
  | t :: rest =>
    if t.ty = .semicolon then rest
    else if isSyncBoundary t.ty then t :: rest
    else synchronize rest

/-- `Parser::parse_statement`: on failure, synchronize and keep the error. -/
def parseStatementTop (fuel : Nat) (ts : List Token) : PRes Stmt :=
  match parseDeclaration fuel ts with
  | .ok s rest => .ok s rest
  | .err e rest => .err e (synchronize rest)
  | .fuelOut => .fuelOut

/-- `Parser::has_next`: more statements while the lookahead is not EOF. -/
def hasNext (ts : List Token) : Bool := peekType ts ≠ .eof

/-- The iteration inside `Parser::parse`: each `parse_statement` result is
pushed onto either the statement vector or the error vector.  `none` means
the fuel embedding gave out. -/
def parseLoop : Nat → List Token → Option (List Stmt × List SyntaxErr)
  | 0, _ => none
  | fuel + 1, ts =>
    if hasNext ts then
      match parseStatementTop fuel ts with
      | .ok s rest =>
        (parseLoop fuel rest).map (fun p => (s :: p.1, p.2))
      | .err e rest =>
        (parseLoop fuel rest).map (fun p => (p.1, e :: p.2))
      | .fuelOut => none
    else some ([], [])

/-- `Parser::parse`: the full statement vector when no error was
collected, the accumulated error list otherwise. -/
def parse (fuel : Nat) (ts : List Token) :
    Option (Except (List SyntaxErr) (List Stmt)) :=
  (parseLoop fuel ts).map fun p =>
    if p.2.isEmpty then .ok p.1 else .error p.2

/-! # Helper lemmas

Shared facts about the embedding used by the claim theorems below:
environment-depth preservation of the evaluator, and code-extension
(append-only) behaviour of the compiler.
-/

theorem rebindFrames_length (n : String) (v : Value) :
    ∀ fs fs', rebindFrames n v fs = some fs' → fs'.length = fs.length := by
  intro fs
  induction fs with
  | nil => intro fs' h; simp [rebindFrames] at h
  | cons f rest ih =>
    intro fs' h
    by_cases hc : f.contains n
    · simp [rebindFrames, hc] at h
      subst h
      simp
    · simp [rebindFrames, hc] at h
      rcases h' : rebindFrames n v rest with _ | rest'
      · rw [h'] at h; simp at h
      · rw [h'] at h
        simp at h
        subst h
        simp [ih rest' h']

theorem Env.rebind_frames_length (e : Env) (n : String) (v : Value) :
    ((e.rebind n v).2).frames.length = e.frames.length := by
  unfold Env.rebind
  rcases h : rebindFrames n v e.frames with _ | fs
  · simp
  · have hl := rebindFrames_length n v e.frames fs h
    rcases fs with _ | ⟨f, fs'⟩
    · simp
    · simp [Env.frames] at hl ⊢
      omega

theorem evalExpr_frames_length :
    ∀ (e : Expr) (ctx : Ctx),
      ((evalExpr e ctx).1).env.frames.length = ctx.env.frames.length
  | .binary op lhs rhs, ctx => by
    have ihl := evalExpr_frames_length lhs ctx
    simp only [evalExpr]
    split
    case _ c1 e1 heq => rw [heq] at ihl; simpa using ihl
    case _ c1 v1 heq =>
      rw [heq] at ihl
      have ihr := evalExpr_frames_length rhs c1
      split
      case _ c2 e2 heq2 => rw [heq2] at ihr; simp at ihl ihr ⊢; omega
      case _ c2 v2 heq2 => rw [heq2] at ihr; simp at ihl ihr ⊢; omega
  | .grouping g, ctx => by
    have ih := evalExpr_frames_length g ctx
    simp only [evalExpr]; exact ih
  | .literal l, ctx => by simp [evalExpr]
  | .unary op inner, ctx => by
    have ih := evalExpr_frames_length inner ctx
    simp only [evalExpr]
    split
    case _ c1 e1 heq => rw [heq] at ih; simpa using ih
    case _ c1 v1 heq =>
      rw [heq] at ih
      simp at ih
      rcases op with _ | _
      · rcases v1 with _ | _ | _ | n | s | _ <;> simpa using ih
      · simpa using ih
  | .logical op lhs rhs, ctx => by
    have ihl := evalExpr_frames_length lhs ctx
    simp only [evalExpr]
    split
    case _ c1 e1 heq => rw [heq] at ihl; simpa using ihl
    case _ c1 v1 heq =>
      rw [heq] at ihl
      simp at ihl
      have ihr := evalExpr_frames_length rhs c1
      rcases op with _ | _ <;> rcases hv : v1.truthy with _ | _ <;>
        simp [hv] <;> omega
  | .var v, ctx => by
    simp only [evalExpr]
    rcases h : ctx.env.lookup v.name with _ | val <;> rfl
  | .assign v e, ctx => by
    have ih := evalExpr_frames_length e ctx
    simp only [evalExpr]
    split
    case _ c1 e1 heq => rw [heq] at ih; simpa using ih
    case _ c1 v1 heq =>
      rw [heq] at ih
      simp at ih
      have hr := Env.rebind_frames_length c1.env v.name v1
      split
      case _ env' hrb => rw [hrb] at hr; simp at hr ⊢; omega
      case _ b hrb => simpa using ih
  | .call callee args, ctx => by simp [evalExpr]

theorem Ctx.pushEnv_frames_length (c : Ctx) :
    c.pushEnv.env.frames.length = c.env.frames.length + 1 := by
  simp [Ctx.pushEnv, Env.extend, Env.frames]

theorem Ctx.println_env (c : Ctx) (v : Value) : (c.println v).env = c.env := rfl

-- the main mutual statement, by induction on fuel
theorem eval_ok_frames_length :
    ∀ fuel : Nat,
      (∀ s ctx ctx' v, evalStmt fuel s ctx = (ctx', .ok v) →
        ctx'.env.frames.length = ctx.env.frames.length) ∧
      (∀ ss ctx ctx' v, evalStmtList fuel ss ctx = (ctx', .ok v) →
        ctx'.env.frames.length = ctx.env.frames.length) := by
  intro fuel
  induction fuel with
  | zero =>
    constructor <;> intro _ ctx ctx' v h <;>
      simp [evalStmt, evalStmtList] at h
  | succ f ih =>
    obtain ⟨ihS, ihL⟩ := ih
    constructor
    · intro s ctx ctx' v h
      cases s with
      | expr e =>
        have he := evalExpr_frames_length e ctx
        simp only [evalStmt] at h
        split at h
        · simp at h
        · rename_i c1 v1 heq
          rw [heq] at he
          simp at h he
          rw [← h.1]
          exact he
      | print e =>
        have he := evalExpr_frames_length e ctx
        simp only [evalStmt] at h
        split at h
        · simp at h
        · rename_i c1 v1 heq
          rw [heq] at he
          simp at h he
          rw [← h.1]
          simpa [Ctx.println] using he
      | varDecl vr e =>
        have he := evalExpr_frames_length e ctx
        simp only [evalStmt] at h
        split at h
        · simp at h
        · rename_i c1 v1 heq
          rw [heq] at he
          simp at h he
          rw [← h.1]
          simpa [Env.bind, Env.frames] using he
      | block ss =>
        simp only [evalStmt] at h
        split at h
        · simp at h
        · rename_i c1 v1 heq
          have hlist := ihL ss ctx.pushEnv c1 v1 heq
          rw [Ctx.pushEnv_frames_length] at hlist
          simp at h
          rw [← h.1]
          -- popEnv drops exactly one frame since c1 has ≥ 2 frames
          have hpos : ctx.env.frames.length = ctx.env.rest.length + 1 := by
            simp [Env.frames]
          rcases hc : c1.env.rest with _ | ⟨g, r⟩
          · -- impossible: frames.length = rest.length + 1 = 1, but hlist says ≥ 2
            exfalso
            have hone : c1.env.frames.length = 1 := by simp [Env.frames, hc]
            omega
          · have : c1.popEnv.env.frames.length + 1 = c1.env.frames.length := by
              simp [Ctx.popEnv, Env.parent, hc, Env.frames]
            omega
      | ifStmt cond thenC elseC =>
        have hc := evalExpr_frames_length cond ctx
        simp only [evalStmt] at h
        split at h
        · simp at h
        · rename_i c1 v1 heq
          rw [heq] at hc
          simp at hc
          rcases hv : v1.truthy with _ | _ <;> simp only [hv] at h
          · -- else branch taken
            cases elseC with
            | some ec =>
              simp only [Bool.false_eq_true, if_false] at h
              split at h
              · simp at h
              · rename_i c2 v2 heq2
                have h2 := ihS ec c1 c2 v2 heq2
                simp at h
                rw [← h.1]
                omega
            | none =>
              simp only [Bool.false_eq_true, if_false] at h
              simp at h
              rw [← h.1]
              omega
          · simp only [if_true] at h
            split at h
            · simp at h
            · rename_i c2 v2 heq2
              have h2 := ihS thenC c1 c2 v2 heq2
              simp at h
              rw [← h.1]
              omega
      | whileStmt cond body =>
        have hc := evalExpr_frames_length cond ctx
        simp only [evalStmt] at h
        split at h
        · simp at h
        · rename_i c1 v1 heq
          rw [heq] at hc
          simp at hc
          rcases hv : v1.truthy with _ | _ <;> simp only [hv] at h
          · simp only [Bool.false_eq_true, if_false] at h
            simp at h
            rw [← h.1]
            omega
          · simp only [if_true] at h
            split at h
            · simp at h
            · rename_i c2 v2 heq2
              have h1 := ihS body c1 c2 v2 heq2
              have h2 := ihS (.whileStmt cond body) c2 ctx' v h
              omega
      | function => simp [evalStmt] at h
      | ret e => simp [evalStmt] at h
    · intro ss ctx ctx' v h
      cases ss with
      | nil =>
        simp [evalStmtList] at h
        rw [← h.1]
      | cons s rest =>
        simp only [evalStmtList] at h
        split at h
        · simp at h
        · rename_i c1 v1 heq
          have h1 := ihS s ctx c1 v1 heq
          have h2 := ihL rest c1 ctx' v h
          omega

theorem CState.emit_code (c : CState) (o : Op) :
    (c.emit o).chunk.code = c.chunk.code ++ [.op o] := rfl

theorem CState.emitByte_code (c : CState) (b : Nat) :
    (c.emitByte b).chunk.code = c.chunk.code ++ [.byte b] := rfl

theorem CState.emitJze_code (c : CState) :
    (c.emitJze.1).chunk.code =
      c.chunk.code ++ [.op .jumpIfFalse, .byte 0xff, .byte 0xff] ∧
    c.emitJze.2 = c.chunk.code.length + 1 := by
  constructor
  · simp [CState.emitJze, Chunk.write, Chunk.writeByte]
  · simp [CState.emitJze, Chunk.write, Chunk.writeByte, Chunk.len]

theorem CState.emitJmp_code (c : CState) :
    (c.emitJmp.1).chunk.code =
      c.chunk.code ++ [.op .jump, .byte 0xff, .byte 0xff] ∧
    c.emitJmp.2 = c.chunk.code.length + 1 := by
  constructor
  · simp [CState.emitJmp, Chunk.write, Chunk.writeByte]
  · simp [CState.emitJmp, Chunk.write, Chunk.writeByte, Chunk.len]

theorem CState.emitJmpTo_code (c : CState) (ip : Nat) :
    (c.emitJmpTo ip).chunk.code =
      c.chunk.code ++ [.op .jump, .byte (ip % 256), .byte (ip / 256 % 256)] := by
  simp [CState.emitJmpTo, Chunk.write, Chunk.writeByte]

theorem Chunk.stringConstant_preserves_code (c : Chunk) (s : String) :
    ((c.stringConstant s).1).code = c.code := by
  unfold Chunk.stringConstant
  rcases h : c.constants.findIdx? (fun v => v == VmValue.str s) with _ | i <;>
    simp [h]

theorem CState.stringConstant_code (c : CState) (s : String) :
    ((c.stringConstant s).1).chunk.code = c.chunk.code := by
  unfold CState.stringConstant
  have := Chunk.stringConstant_preserves_code c.chunk s
  rcases h : c.chunk.stringConstant s with ⟨ch, i⟩
  rw [h] at this
  simpa using this

theorem CState.resolveLocal_chunk (c : CState) (n : String) (d : Nat)
    (c' : CState) (i : Nat) (h : c.resolveLocal n d = .ok (c', i)) :
    c'.chunk = c.chunk := by
  simp only [CState.resolveLocal] at h
  rcases hf : c.locals.findIdx?
      (fun p => p.1 == n && p.2 == c.scopeDepth - d) with _ | j <;>
    rw [hf] at h
  · rcases hl : c.locals.length == 255 with _ | _ <;> rw [hl] at h
    · simp at h
      rw [← h.1]
    · simp at h
  · simp at h
    rw [← h.1]

theorem CState.emitConstant_code (c : CState) (l : Lit) :
    ∃ Δ, (c.emitConstant l).chunk.code = c.chunk.code ++ Δ := by
  unfold CState.emitConstant
  rcases l with _ | _ | _ | n | s
  · exact ⟨_, rfl⟩
  · exact ⟨_, rfl⟩
  · exact ⟨_, rfl⟩
  · refine ⟨[.op .immediate, .val (.num n)], ?_⟩
    simp [CState.emit, Chunk.write, Chunk.writeVal]
  · rcases h : c.stringConstant s with ⟨c1, idx⟩
    have hc := CState.stringConstant_code c s
    rw [h] at hc
    refine ⟨[.op (.constant idx)], ?_⟩
    simp only [h, CState.emit, Chunk.write]
    simpa using hc

theorem CState.patchJmp_code_mono (c : CState) (idx : Nat) (base : List Cell)
    (h : ∃ Δ, c.chunk.code = base ++ Δ) (hb : base.length ≤ idx) :
    ∃ Δ, (c.patchJmp idx).chunk.code = base ++ Δ := by
  obtain ⟨Δ, hΔ⟩ := h
  refine ⟨(Δ.set (idx - base.length) (.byte (c.ip % 256))).set
    (idx + 1 - base.length) (.byte (c.ip / 256 % 256)), ?_⟩
  simp only [CState.patchJmp, Chunk.writeByteAt, hΔ]
  rw [List.set_append_right _ _ hb]
  rw [List.set_append_right _ _ (by omega)]

theorem codeExt_trans {c1 c2 c3 : List Cell} (h1 : ∃ Δ, c2 = c1 ++ Δ)
    (h2 : ∃ Δ, c3 = c2 ++ Δ) : ∃ Δ, c3 = c1 ++ Δ := by
  obtain ⟨d1, e1⟩ := h1
  obtain ⟨d2, e2⟩ := h2
  exact ⟨d1 ++ d2, by simp [e2, e1]⟩

theorem CState.emit_mono (c : CState) (o : Op) :
    ∃ Δ, (c.emit o).chunk.code = c.chunk.code ++ Δ := ⟨_, rfl⟩

mutual

theorem compileExpr_code_mono :
    ∀ (e : Expr) (c c' : CState), compileExpr e c = .ok c' →
      ∃ Δ, c'.chunk.code = c.chunk.code ++ Δ
  | .binary op lhs rhs, c, c', h => by
    have ihl := fun c c' h => compileExpr_code_mono lhs c c' h
    have ihr := fun c c' h => compileExpr_code_mono rhs c c' h
    rcases op <;>
      (simp only [compileExpr, bind, Except.bind] at h
       split at h
       case _ e1 heq1 => simp at h
       case _ c1 heq1 =>
         split at h
         case _ e2 heq2 => simp at h
         case _ c2 heq2 =>
           simp only [pure, Except.pure, Except.ok.injEq] at h
           subst h
           first
           | exact codeExt_trans (codeExt_trans (ihl _ _ heq1) (ihr _ _ heq2))
               (CState.emit_mono _ _)
           | exact codeExt_trans (codeExt_trans (ihr _ _ heq1) (ihl _ _ heq2))
               (CState.emit_mono _ _)
           | exact codeExt_trans (codeExt_trans (codeExt_trans (ihl _ _ heq1)
               (ihr _ _ heq2)) (CState.emit_mono _ _)) (CState.emit_mono _ _))
  | .grouping g, c, c', h => by
    exact compileExpr_code_mono g c c' h
  | .literal l, c, c', h => by
    simp only [compileExpr, pure, Except.pure, Except.ok.injEq] at h
    subst h
    exact CState.emitConstant_code c l
  | .unary op inner, c, c', h => by
    have ih := fun c c' h => compileExpr_code_mono inner c c' h
    simp only [compileExpr, bind, Except.bind] at h
    split at h
    case _ e1 heq1 => simp at h
    case _ c1 heq1 =>
      obtain ⟨Δ1, h1⟩ := ih _ _ heq1
      rcases op <;>
        (simp only [pure, Except.pure, Except.ok.injEq] at h
         subst h
         exact codeExt_trans ⟨Δ1, h1⟩ (CState.emit_mono _ _))
  | .logical op lhs rhs, c, c', h => by
    have ihl := fun c c' h => compileExpr_code_mono lhs c c' h
    have ihr := fun c c' h => compileExpr_code_mono rhs c c' h
    rcases op
    · -- and
      simp only [compileExpr, bind, Except.bind] at h
      split at h
      case _ e1 heq1 => simp at h
      case _ c1 heq1 =>
        split at h
        case _ e2 heq2 => simp at h
        case _ c2 heq2 =>
          simp only [pure, Except.pure, Except.ok.injEq] at h
          subst h
          obtain ⟨Δ1, h1⟩ := ihl _ _ heq1
          obtain ⟨Δ2, h2⟩ := ihr _ _ heq2
          apply CState.patchJmp_code_mono
          · refine ⟨Δ1 ++ [.op .jumpIfFalse, .byte 0xff, .byte 0xff, .op .pop]
              ++ Δ2, ?_⟩
            simp only [h2, CState.emit, Chunk.write, CState.emitJze,
              Chunk.writeByte, h1]
            simp
          · have hj := (CState.emitJze_code c1).2
            rw [hj, h1]
            simp
            omega
    · -- or
      simp only [compileExpr, bind, Except.bind] at h
      split at h
      case _ e1 heq1 => simp at h
      case _ c1 heq1 =>
        split at h
        case _ e2 heq2 => simp at h
        case _ c2 heq2 =>
          simp only [pure, Except.pure, Except.ok.injEq] at h
          subst h
          obtain ⟨Δ1, h1⟩ := ihl _ _ heq1
          obtain ⟨Δ2, h2⟩ := ihr _ _ heq2
          have h6 : ∃ Δ, (c1.emitJze.1.emitJmp.1).chunk.code =
              c.chunk.code ++ Δ := by
            refine ⟨Δ1 ++ [.op .jumpIfFalse, .byte 0xff, .byte 0xff,
              .op .jump, .byte 0xff, .byte 0xff], ?_⟩
            rw [(CState.emitJmp_code c1.emitJze.1).1,
              (CState.emitJze_code c1).1, h1]
            simp
          have hp1 := CState.patchJmp_code_mono _ c1.emitJze.2 _ h6 (by
            rw [(CState.emitJze_code c1).2, h1]
            simp
            omega)
          have hpop := codeExt_trans hp1 (CState.emit_mono _ .pop)
          have hc2 : ∃ Δ, c2.chunk.code = c.chunk.code ++ Δ :=
            codeExt_trans hpop ⟨Δ2, h2⟩
          exact CState.patchJmp_code_mono _ _ _ hc2 (by
            rw [(CState.emitJmp_code c1.emitJze.1).2,
              (CState.emitJze_code c1).1, h1]
            simp
            omega)
  | .var v, c, c', h => by
    rcases v with ⟨name, sc⟩
    rcases sc with _ | d
    · simp only [compileExpr] at h
      rcases hs : (c.emit .getGlobal).stringConstant name with ⟨c1, idx⟩
      rw [hs] at h
      simp only [pure, Except.pure, Except.ok.injEq] at h
      subst h
      have hc := CState.stringConstant_code (c.emit .getGlobal) name
      rw [hs] at hc
      simp only at hc
      refine ⟨[.op .getGlobal, .byte idx], ?_⟩
      show (c1.emitByte idx).chunk.code = _
      rw [CState.emitByte_code, hc, CState.emit_code]
      simp
    · simp only [compileExpr, bind, Except.bind] at h
      rcases hr : c.resolveLocal name d with e1 | ⟨c1, idx⟩ <;> rw [hr] at h
      · simp at h
      · simp only [pure, Except.pure, Except.ok.injEq] at h
        have hc := CState.resolveLocal_chunk c name d c1 idx hr
        subst h
        refine ⟨[.op .getLocal, .byte idx], ?_⟩
        rw [CState.emitByte_code, CState.emit_code, hc]
        simp
  | .assign v e, c, c', h => by
    have ihe := fun c c' h => compileExpr_code_mono e c c' h
    rcases v with ⟨name, sc⟩
    rcases sc with _ | d
    · simp only [compileExpr, bind, Except.bind] at h
      split at h
      case _ e1 heq1 => simp at h
      case _ c1 heq1 =>
        obtain ⟨Δ1, h1⟩ := ihe _ _ heq1
        rcases hs : (c1.emit .setGlobal).stringConstant name with ⟨c2, idx⟩
        rw [hs] at h
        simp only [pure, Except.pure, Except.ok.injEq] at h
        subst h
        have hc := CState.stringConstant_code (c1.emit .setGlobal) name
        rw [hs] at hc
        simp only at hc
        refine ⟨Δ1 ++ [.op .setGlobal, .byte idx], ?_⟩
        show (c2.emitByte idx).chunk.code = _
        rw [CState.emitByte_code, hc, CState.emit_code, h1]
        simp
    · simp only [compileExpr, bind, Except.bind] at h
      split at h
      case _ e1 heq1 => simp at h
      case _ c1 heq1 =>
        obtain ⟨Δ1, h1⟩ := ihe _ _ heq1
        rcases hr : c1.resolveLocal name d with e2 | ⟨c2, idx⟩ <;> rw [hr] at h
        · simp at h
        · simp only [pure, Except.pure, Except.ok.injEq] at h
          have hc := CState.resolveLocal_chunk c1 name d c2 idx hr
          subst h
          refine ⟨Δ1 ++ [.op .setLocal, .byte idx], ?_⟩
          rw [CState.emitByte_code, CState.emit_code, hc, h1]
          simp
  | .call callee args, c, c', h => by
    have ihc := fun c c' h => compileExpr_code_mono callee c c' h
    have iha := fun c c' h => compileArgs_code_mono args c c' h
    simp only [compileExpr, bind, Except.bind] at h
    split at h
    case _ e1 heq1 => simp at h
    case _ c1 heq1 =>
      split at h
      case _ e2 heq2 => simp at h
      case _ c2 heq2 =>
        split at h
        · simp at h
        · simp only [pure, Except.pure, Except.ok.injEq] at h
          subst h
          obtain ⟨Δ1, h1⟩ := ihc _ _ heq1
          obtain ⟨Δ2, h2⟩ := iha _ _ heq2
          refine ⟨Δ1 ++ Δ2 ++ [.op (.callOp args.length)], ?_⟩
          simp [CState.emit, Chunk.write, h1, h2]

theorem compileArgs_code_mono :
    ∀ (es : List Expr) (c c' : CState), compileArgs es c = .ok c' →
      ∃ Δ, c'.chunk.code = c.chunk.code ++ Δ
  | [], c, c', h => by
    simp only [compileArgs, pure, Except.pure, Except.ok.injEq] at h
    subst h
    exact ⟨[], by simp⟩
  | a :: rest, c, c', h => by
    have iha := fun c c' h => compileExpr_code_mono a c c' h
    have ihr := fun c c' h => compileArgs_code_mono rest c c' h
    simp only [compileArgs, bind, Except.bind] at h
    split at h
    case _ e1 heq1 => simp at h
    case _ c1 heq1 =>
      obtain ⟨Δ1, h1⟩ := iha _ _ heq1
      obtain ⟨Δ2, h2⟩ := ihr _ _ h
      exact ⟨Δ1 ++ Δ2, by simp [h1, h2]⟩

end

theorem List.findIdx?_some_getElem {α : Type} (p : α → Bool) (l : List α)
    (i : Nat) (h : l.findIdx? p = some i) : ∃ a, l[i]? = some a ∧ p a := by
  rw [List.findIdx?_eq_some_iff_findIdx_eq] at h
  obtain ⟨hlt, heq⟩ := h
  refine ⟨l[i], by simp [List.getElem?_eq_getElem hlt], ?_⟩
  subst heq
  exact List.findIdx_getElem

/-- Interning returns an index at which the pool holds exactly the interned
string. -/
theorem Chunk.stringConstant_pool_entry (c : Chunk) (s : String) :
    ((c.stringConstant s).1).constants[(c.stringConstant s).2]? =
      some (.str s) := by
  unfold Chunk.stringConstant
  rcases h : c.constants.findIdx? (fun v => v == .str s) with _ | i
  · rw [h]
    exact List.getElem?_concat_length _ _
  · rw [h]
    obtain ⟨a, ha, hp⟩ := List.findIdx?_some_getElem _ _ _ h
    simp only [beq_iff_eq] at hp
    subst hp
    exact ha

theorem CState.stringConstant_spec (c : CState) (s : String) :
    ((c.stringConstant s).1).chunk.constants[(c.stringConstant s).2]? =
      some (.str s) := by
  unfold CState.stringConstant
  have := Chunk.stringConstant_pool_entry c.chunk s
  rcases h : c.chunk.stringConstant s with ⟨ch, i⟩
  rw [h] at this
  simpa using this

/-- `synchronize` drops a (possibly empty) run of tokens none of which is a
semicolon or a statement-boundary keyword, and then either exhausts the
stream, consumes a final semicolon, or stops just before a boundary
keyword. -/
theorem synchronize_spec (ts : List Token) :
    ∃ pre suf, ts = pre ++ suf ∧
      (∀ t ∈ pre, t.ty ≠ .semicolon ∧ isSyncBoundary t.ty = false) ∧
      ((suf = [] ∧ synchronize ts = []) ∨
       (∃ t rest, suf = t :: rest ∧ t.ty = .semicolon ∧
          synchronize ts = rest) ∨
       (∃ t rest, suf = t :: rest ∧ isSyncBoundary t.ty = true ∧
          synchronize ts = t :: rest)) := by
  induction ts with
  | nil =>
    exact ⟨[], [], rfl, by simp, Or.inl ⟨rfl, rfl⟩⟩
  | cons t rest ih =>
    by_cases hsemi : t.ty = .semicolon
    · refine ⟨[], t :: rest, rfl, by simp,
        Or.inr (Or.inl ⟨t, rest, rfl, hsemi, ?_⟩)⟩
      simp [synchronize, hsemi]
    · by_cases hb : isSyncBoundary t.ty = true
      · refine ⟨[], t :: rest, rfl, by simp,
          Or.inr (Or.inr ⟨t, rest, rfl, hb, ?_⟩)⟩
        simp [synchronize, hsemi, hb]
      · obtain ⟨pre, suf, hsplit, hpre, hcase⟩ := ih
        have hsync : synchronize (t :: rest) = synchronize rest := by
          simp [synchronize, hsemi, hb]
        refine ⟨t :: pre, suf, by simp [hsplit], ?_, ?_⟩
        · intro u hu
          rcases hu with _ | hu
          · exact ⟨hsemi, by simpa using hb⟩
          · exact hpre u (by assumption)
        · rw [hsync]
          exact hcase

theorem runLoop_step (fuel l : Nat) (st st' : VmState) (f : VmFrame)
    (rest : List VmFrame) (hf : st.frames = f :: rest) (hlt : f.ip < l)
    (hs : st.stepInstr = .ok st') :
    runLoop (fuel + 1) l st = runLoop fuel l st' := by
  simp only [runLoop, VmState.curFrame, hf, hs, bind, Except.bind]
  rw [if_pos hlt]

theorem runLoop_halt (fuel l : Nat) (st : VmState) (f : VmFrame)
    (rest : List VmFrame) (hf : st.frames = f :: rest) (hge : ¬f.ip < l) :
    runLoop (fuel + 1) l st = .ok st := by
  simp only [runLoop, VmState.curFrame, hf, bind, Except.bind]
  rw [if_neg hge]

/-! ## Short-circuit execution of the compiled logical operators

`false and X` compiles to `[False, JumpIfFalse, lo, hi, Pop] ++ code(X)`
with the patched target just past `code(X)`; pushing `false` and taking the
jump lands on the expression statement's trailing `Pop`, so the VM halts
with empty stack and no output no matter what `X` is — its code is never
entered.  `true or X` analogously falls through the `JumpIfFalse` into the
unconditional `Jump` over `code(X)`.
-/

theorem compileAnd_shape (X : Expr) (c4 : CState)
    (hX : compileExpr X
      ⟨⟨[.op .falseOp, .op .jumpIfFalse, .byte 255, .byte 255, .op .pop], []⟩,
        [], 0⟩ = .ok c4) :
    compileProgram [.expr (.logical .andOp (.literal .fls) X)] =
      .ok (((c4.patchJmp 2).emit .pop).chunk) := by
  simp only [compileProgram, compileStmtList, compileStmt, compileExpr,
    CState.emitConstant, CState.new, CState.emitJze, Chunk.empty, Chunk.write,
    Chunk.writeByte, CState.emit, Chunk.len, bind, Except.bind, pure,
    Except.pure, List.nil_append, List.singleton_append, List.cons_append,
    List.length_cons, List.length_nil]
  norm_num
  rw [hX]

theorem compileAnd_shape_err (X : Expr) (e : CErr)
    (hX : compileExpr X
      ⟨⟨[.op .falseOp, .op .jumpIfFalse, .byte 255, .byte 255, .op .pop], []⟩,
        [], 0⟩ = .error e) :
    compileProgram [.expr (.logical .andOp (.literal .fls) X)] = .error e := by
  simp only [compileProgram, compileStmtList, compileStmt, compileExpr,
    CState.emitConstant, CState.new, CState.emitJze, Chunk.empty, Chunk.write,
    Chunk.writeByte, CState.emit, Chunk.len, bind, Except.bind, pure,
    Except.pure, List.nil_append, List.singleton_append, List.cons_append,
    List.length_cons, List.length_nil]
  norm_num
  rw [hX]

theorem vm_and_shortcircuit (X : Expr) (ch : Chunk)
    (hc : compileProgram [.expr (.logical .andOp (.literal .fls) X)] = .ok ch)
    (hlen : ch.code.length < 65536) :
    runVM 4 ch = .ok ⟨ch, [], [⟨ch.code.length, 0⟩], [], []⟩ := by
  rcases hX : compileExpr X
      ⟨⟨[.op .falseOp, .op .jumpIfFalse, .byte 255, .byte 255, .op .pop], []⟩,
        [], 0⟩ with eX | c4
  · rw [compileAnd_shape_err X eX hX] at hc
    simp at hc
  · have hsh := compileAnd_shape X c4 hX
    rw [hc] at hsh
    obtain ⟨Δ, hΔ⟩ := compileExpr_code_mono X _ c4 hX
    have hch : ch = ((c4.patchJmp 2).emit .pop).chunk := by
      injection hsh
    have hcode : ch.code = .op .falseOp :: .op .jumpIfFalse ::
        .byte ((Δ.length + 5) % 256) :: .byte ((Δ.length + 5) / 256 % 256) ::
        .op .pop :: (Δ ++ [.op .pop]) := by
      rw [hch]
      simp only [CState.emit, Chunk.write, CState.patchJmp, Chunk.writeByteAt,
        CState.ip, Chunk.len, hΔ]
      simp [List.set]
    have hL : ch.code.length = Δ.length + 6 := by
      rw [hcode]; simp
    have g0 : ch.code[0]? = some (.op .falseOp) := by rw [hcode]; rfl
    have g1 : ch.code[1]? = some (.op .jumpIfFalse) := by rw [hcode]; rfl
    have g2 : ch.code[2]? = some (.byte ((Δ.length + 5) % 256)) := by
      rw [hcode]; rfl
    have g3 : ch.code[3]? = some (.byte ((Δ.length + 5) / 256 % 256)) := by
      rw [hcode]; rfl
    have gt : ch.code[Δ.length + 5]? = some (.op .pop) := by
      rw [hcode, show Δ.length + 5 = Δ.length + 1 + 1 + 1 + 1 + 1 from by omega]
      simp only [List.getElem?_cons_succ]
      exact List.getElem?_concat_length _ _
    have ht : (Δ.length + 5) % 256 + (Δ.length + 5) / 256 % 256 * 256 =
        Δ.length + 5 := by omega
    have s1 : VmState.stepInstr ⟨ch, [], [⟨0, 0⟩], [], []⟩ =
        .ok ⟨ch, [.fls], [⟨1, 0⟩], [], []⟩ := by
      simp [VmState.stepInstr, VmState.readCell, VmState.curFrame,
        VmState.setIp, g0, VmState.execOp, VmState.push, bind, Except.bind]
    have s2 : VmState.stepInstr ⟨ch, [.fls], [⟨1, 0⟩], [], []⟩ =
        .ok ⟨ch, [.fls], [⟨Δ.length + 5, 0⟩], [], []⟩ := by
      simp [VmState.stepInstr, VmState.readCell, VmState.curFrame,
        VmState.setIp, g1, g2, g3, VmState.execOp, VmState.readU16,
        VmState.readByte, VmState.peek, VmValue.falsey, VmValue.truthy,
        bind, Except.bind, ht]
    have s3 : VmState.stepInstr ⟨ch, [.fls], [⟨Δ.length + 5, 0⟩], [], []⟩ =
        .ok ⟨ch, [], [⟨Δ.length + 6, 0⟩], [], []⟩ := by
      simp [VmState.stepInstr, VmState.readCell, VmState.curFrame,
        VmState.setIp, gt, VmState.execOp, VmState.pop, bind, Except.bind]
    show runLoop (3 + 1) ch.code.length ⟨ch, [], [⟨0, 0⟩], [], []⟩ =
      .ok ⟨ch, [], [⟨ch.code.length, 0⟩], [], []⟩
    rw [hL]
    rw [runLoop_step 3 _ _ _ ⟨0, 0⟩ [] rfl
      (show (0 : Nat) < Δ.length + 6 by omega) s1]
    rw [show (3 : Nat) = 2 + 1 from rfl]
    rw [runLoop_step 2 _ _ _ ⟨1, 0⟩ [] rfl
      (show (1 : Nat) < Δ.length + 6 by omega) s2]
    rw [show (2 : Nat) = 1 + 1 from rfl]
    rw [runLoop_step 1 _ _ _ ⟨Δ.length + 5, 0⟩ [] rfl
      (show Δ.length + 5 < Δ.length + 6 by omega) s3]
    rw [show (1 : Nat) = 0 + 1 from rfl]
    rw [runLoop_halt 0 _ _ ⟨Δ.length + 6, 0⟩ [] rfl
      (show ¬(Δ.length + 6 < Δ.length + 6) by omega)]

theorem compileOr_shape (X : Expr) (c4 : CState)
    (hX : compileExpr X
      ⟨⟨[.op .trueOp, .op .jumpIfFalse, .byte 7, .byte 0, .op .jump,
         .byte 255, .byte 255, .op .pop], []⟩, [], 0⟩ = .ok c4) :
    compileProgram [.expr (.logical .orOp (.literal .tru) X)] =
      .ok (((c4.patchJmp 5).emit .pop).chunk) := by
  simp only [compileProgram, compileStmtList, compileStmt, compileExpr,
    CState.emitConstant, CState.new, CState.emitJze, CState.emitJmp,
    CState.patchJmp, CState.ip, Chunk.writeByteAt, Chunk.empty, Chunk.write,
    Chunk.writeByte, CState.emit, Chunk.len, bind, Except.bind, pure,
    Except.pure, List.nil_append, List.singleton_append, List.cons_append,
    List.length_cons, List.length_nil]
  norm_num
  rw [hX]

theorem compileOr_shape_err (X : Expr) (e : CErr)
    (hX : compileExpr X
      ⟨⟨[.op .trueOp, .op .jumpIfFalse, .byte 7, .byte 0, .op .jump,
         .byte 255, .byte 255, .op .pop], []⟩, [], 0⟩ = .error e) :
    compileProgram [.expr (.logical .orOp (.literal .tru) X)] = .error e := by
  simp only [compileProgram, compileStmtList, compileStmt, compileExpr,
    CState.emitConstant, CState.new, CState.emitJze, CState.emitJmp,
    CState.patchJmp, CState.ip, Chunk.writeByteAt, Chunk.empty, Chunk.write,
    Chunk.writeByte, CState.emit, Chunk.len, bind, Except.bind, pure,
    Except.pure, List.nil_append, List.singleton_append, List.cons_append,
    List.length_cons, List.length_nil]
  norm_num
  rw [hX]

theorem vm_or_shortcircuit (X : Expr) (ch : Chunk)
    (hc : compileProgram [.expr (.logical .orOp (.literal .tru) X)] = .ok ch)
    (hlen : ch.code.length < 65536) :
    runVM 5 ch = .ok ⟨ch, [], [⟨ch.code.length, 0⟩], [], []⟩ := by
  rcases hX : compileExpr X
      ⟨⟨[.op .trueOp, .op .jumpIfFalse, .byte 7, .byte 0, .op .jump,
         .byte 255, .byte 255, .op .pop], []⟩, [], 0⟩ with eX | c4
  · rw [compileOr_shape_err X eX hX] at hc
    simp at hc
  · have hsh := compileOr_shape X c4 hX
    rw [hc] at hsh
    obtain ⟨Δ, hΔ⟩ := compileExpr_code_mono X _ c4 hX
    have hch : ch = ((c4.patchJmp 5).emit .pop).chunk := by
      injection hsh
    have hcode : ch.code = .op .trueOp :: .op .jumpIfFalse ::
        .byte 7 :: .byte 0 :: .op .jump ::
        .byte ((Δ.length + 8) % 256) :: .byte ((Δ.length + 8) / 256 % 256) ::
        .op .pop :: (Δ ++ [.op .pop]) := by
      rw [hch]
      simp only [CState.emit, Chunk.write, CState.patchJmp, Chunk.writeByteAt,
        CState.ip, Chunk.len, hΔ]
      simp [List.set]
    have hL : ch.code.length = Δ.length + 9 := by
      rw [hcode]; simp
    have g0 : ch.code[0]? = some (.op .trueOp) := by rw [hcode]; rfl
    have g1 : ch.code[1]? = some (.op .jumpIfFalse) := by rw [hcode]; rfl
    have g2 : ch.code[2]? = some (.byte 7) := by rw [hcode]; rfl
    have g3 : ch.code[3]? = some (.byte 0) := by rw [hcode]; rfl
    have g4 : ch.code[4]? = some (.op .jump) := by rw [hcode]; rfl
    have g5 : ch.code[5]? = some (.byte ((Δ.length + 8) % 256)) := by
      rw [hcode]; rfl
    have g6 : ch.code[6]? = some (.byte ((Δ.length + 8) / 256 % 256)) := by
      rw [hcode]; rfl
    have gt : ch.code[Δ.length + 8]? = some (.op .pop) := by
      rw [hcode, show Δ.length + 8 =
        Δ.length + 1 + 1 + 1 + 1 + 1 + 1 + 1 + 1 from by omega]
      simp only [List.getElem?_cons_succ]
      exact List.getElem?_concat_length _ _
    have ht : (Δ.length + 8) % 256 + (Δ.length + 8) / 256 % 256 * 256 =
        Δ.length + 8 := by omega
    have s1 : VmState.stepInstr ⟨ch, [], [⟨0, 0⟩], [], []⟩ =
        .ok ⟨ch, [.tru], [⟨1, 0⟩], [], []⟩ := by
      simp [VmState.stepInstr, VmState.readCell, VmState.curFrame,
        VmState.setIp, g0, VmState.execOp, VmState.push, bind, Except.bind]
    have s2 : VmState.stepInstr ⟨ch, [.tru], [⟨1, 0⟩], [], []⟩ =
        .ok ⟨ch, [.tru], [⟨4, 0⟩], [], []⟩ := by
      simp [VmState.stepInstr, VmState.readCell, VmState.curFrame,
        VmState.setIp, g1, g2, g3, VmState.execOp, VmState.readU16,
        VmState.readByte, VmState.peek, VmValue.falsey, VmValue.truthy,
        bind, Except.bind]
    have s3 : VmState.stepInstr ⟨ch, [.tru], [⟨4, 0⟩], [], []⟩ =
        .ok ⟨ch, [.tru], [⟨Δ.length + 8, 0⟩], [], []⟩ := by
      simp [VmState.stepInstr, VmState.readCell, VmState.curFrame,
        VmState.setIp, g4, g5, g6, VmState.execOp, VmState.readU16,
        VmState.readByte, bind, Except.bind, ht]
    have s4 : VmState.stepInstr ⟨ch, [.tru], [⟨Δ.length + 8, 0⟩], [], []⟩ =
        .ok ⟨ch, [], [⟨Δ.length + 9, 0⟩], [], []⟩ := by
      simp [VmState.stepInstr, VmState.readCell, VmState.curFrame,
        VmState.setIp, gt, VmState.execOp, VmState.pop, bind, Except.bind]
    show runLoop (4 + 1) ch.code.length ⟨ch, [], [⟨0, 0⟩], [], []⟩ =
      .ok ⟨ch, [], [⟨ch.code.length, 0⟩], [], []⟩
    rw [hL]
    rw [runLoop_step 4 _ _ _ ⟨0, 0⟩ [] rfl
      (show (0 : Nat) < Δ.length + 9 by omega) s1]
    rw [show (4 : Nat) = 3 + 1 from rfl]
    rw [runLoop_step 3 _ _ _ ⟨1, 0⟩ [] rfl
      (show (1 : Nat) < Δ.length + 9 by omega) s2]
    rw [show (3 : Nat) = 2 + 1 from rfl]
    rw [runLoop_step 2 _ _ _ ⟨4, 0⟩ [] rfl
      (show (4 : Nat) < Δ.length + 9 by omega) s3]
    rw [show (2 : Nat) = 1 + 1 from rfl]
    rw [runLoop_step 1 _ _ _ ⟨Δ.length + 8, 0⟩ [] rfl
      (show Δ.length + 8 < Δ.length + 9 by omega) s4]
    rw [show (1 : Nat) = 0 + 1 from rfl]
    rw [runLoop_halt 0 _ _ ⟨Δ.length + 9, 0⟩ [] rfl
      (show ¬(Δ.length + 9 < Δ.length + 9) by omega)]

/-! ## What the compiled comparisons actually compute

`a >= b` is lowered to swapped operands plus `LessThan`, so running the
compiled print statement yields the truth value of `b < a` (that is
`a > b`) for every pair of numbers — not `!(a < b)`; `a <= b` analogously
yields `b > a`.
-/

theorem vm_ge_computes_flipped_lt (a b : ℚ) :
    vmOutput 5 [.print (.binary .greaterThanEq (.literal (.num a))
        (.literal (.num b)))] =
      .ok (.ok [if b < a then "true" else "false"]) := by
  have hcomp : compileProgram [.print (.binary .greaterThanEq
      (.literal (.num a)) (.literal (.num b)))] =
      .ok ⟨[.op .immediate, .val (.num b), .op .immediate, .val (.num a),
            .op .lessThan, .op .printOp], []⟩ := rfl
  simp only [vmOutput, hcomp, bind, Except.bind, pure, Except.pure]
  have s1 : VmState.stepInstr ⟨⟨[.op .immediate, .val (.num b),
      .op .immediate, .val (.num a), .op .lessThan, .op .printOp], []⟩,
      [], [⟨0, 0⟩], [], []⟩ =
      .ok ⟨⟨[.op .immediate, .val (.num b), .op .immediate, .val (.num a),
        .op .lessThan, .op .printOp], []⟩, [.num b], [⟨2, 0⟩], [], []⟩ := by
    simp [VmState.stepInstr, VmState.readCell, VmState.curFrame,
      VmState.setIp, VmState.execOp, VmState.push, bind, Except.bind]
  have s2 : VmState.stepInstr ⟨⟨[.op .immediate, .val (.num b),
      .op .immediate, .val (.num a), .op .lessThan, .op .printOp], []⟩,
      [.num b], [⟨2, 0⟩], [], []⟩ =
      .ok ⟨⟨[.op .immediate, .val (.num b), .op .immediate, .val (.num a),
        .op .lessThan, .op .printOp], []⟩, [.num b, .num a], [⟨4, 0⟩],
        [], []⟩ := by
    simp [VmState.stepInstr, VmState.readCell, VmState.curFrame,
      VmState.setIp, VmState.execOp, VmState.push, bind, Except.bind]
  have s3 : VmState.stepInstr ⟨⟨[.op .immediate, .val (.num b),
      .op .immediate, .val (.num a), .op .lessThan, .op .printOp], []⟩,
      [.num b, .num a], [⟨4, 0⟩], [], []⟩ =
      .ok ⟨⟨[.op .immediate, .val (.num b), .op .immediate, .val (.num a),
        .op .lessThan, .op .printOp], []⟩, [boolLit (decide (b < a))],
        [⟨5, 0⟩], [], []⟩ := by
    simp [VmState.stepInstr, VmState.readCell, VmState.curFrame,
      VmState.setIp, VmState.execOp, VmState.cmp, VmState.pop, VmState.push,
      bind, Except.bind, List.getLast?_concat, List.dropLast_concat]
  have s4 : VmState.stepInstr ⟨⟨[.op .immediate, .val (.num b),
      .op .immediate, .val (.num a), .op .lessThan, .op .printOp], []⟩,
      [boolLit (decide (b < a))], [⟨5, 0⟩], [], []⟩ =
      .ok ⟨⟨[.op .immediate, .val (.num b), .op .immediate, .val (.num a),
        .op .lessThan, .op .printOp], []⟩, [], [⟨6, 0⟩], [],
        [(boolLit (decide (b < a))).display]⟩ := by
    simp [VmState.stepInstr, VmState.readCell, VmState.curFrame,
      VmState.setIp, VmState.execOp, VmState.pop, bind, Except.bind]
  have hrun : runVM 5 ⟨[.op .immediate, .val (.num b), .op .immediate,
      .val (.num a), .op .lessThan, .op .printOp], []⟩ =
      .ok ⟨⟨[.op .immediate, .val (.num b), .op .immediate, .val (.num a),
        .op .lessThan, .op .printOp], []⟩, [], [⟨6, 0⟩], [],
        [(boolLit (decide (b < a))).display]⟩ := by
    show runLoop (4 + 1) 6 ⟨⟨[.op .immediate, .val (.num b), .op .immediate,
      .val (.num a), .op .lessThan, .op .printOp], []⟩, [], [⟨0, 0⟩], [],
      []⟩ = _
    rw [runLoop_step 4 _ _ _ ⟨0, 0⟩ [] rfl (show (0 : Nat) < 6 by norm_num) s1]
    rw [show (4 : Nat) = 3 + 1 from rfl]
    rw [runLoop_step 3 _ _ _ ⟨2, 0⟩ [] rfl (show (2 : Nat) < 6 by norm_num) s2]
    rw [show (3 : Nat) = 2 + 1 from rfl]
    rw [runLoop_step 2 _ _ _ ⟨4, 0⟩ [] rfl (show (4 : Nat) < 6 by norm_num) s3]
    rw [show (2 : Nat) = 1 + 1 from rfl]
    rw [runLoop_step 1 _ _ _ ⟨5, 0⟩ [] rfl (show (5 : Nat) < 6 by norm_num) s4]
    rw [show (1 : Nat) = 0 + 1 from rfl]
    rw [runLoop_halt 0 _ _ ⟨6, 0⟩ [] rfl (show ¬(6 : Nat) < 6 by norm_num)]
  rw [hrun]
  by_cases hba : b < a <;> simp [hba, boolLit, VmValue.display, Except.map]

theorem vm_le_computes_flipped_gt (a b : ℚ) :
    vmOutput 5 [.print (.binary .lessThanEq (.literal (.num a))
        (.literal (.num b)))] =
      .ok (.ok [if b > a then "true" else "false"]) := by
  have hcomp : compileProgram [.print (.binary .lessThanEq
      (.literal (.num a)) (.literal (.num b)))] =
      .ok ⟨[.op .immediate, .val (.num b), .op .immediate, .val (.num a),
            .op .greaterThan, .op .printOp], []⟩ := rfl
  simp only [vmOutput, hcomp, bind, Except.bind, pure, Except.pure]
  have s1 : VmState.stepInstr ⟨⟨[.op .immediate, .val (.num b),
      .op .immediate, .val (.num a), .op .greaterThan, .op .printOp], []⟩,
      [], [⟨0, 0⟩], [], []⟩ =
      .ok ⟨⟨[.op .immediate, .val (.num b), .op .immediate, .val (.num a),
        .op .greaterThan, .op .printOp], []⟩, [.num b], [⟨2, 0⟩], [], []⟩ := by
    simp [VmState.stepInstr, VmState.readCell, VmState.curFrame,
      VmState.setIp, VmState.execOp, VmState.push, bind, Except.bind]
  have s2 : VmState.stepInstr ⟨⟨[.op .immediate, .val (.num b),
      .op .immediate, .val (.num a), .op .greaterThan, .op .printOp], []⟩,
      [.num b], [⟨2, 0⟩], [], []⟩ =
      .ok ⟨⟨[.op .immediate, .val (.num b), .op .immediate, .val (.num a),
        .op .greaterThan, .op .printOp], []⟩, [.num b, .num a], [⟨4, 0⟩],
        [], []⟩ := by
    simp [VmState.stepInstr, VmState.readCell, VmState.curFrame,
      VmState.setIp, VmState.execOp, VmState.push, bind, Except.bind]
  have s3 : VmState.stepInstr ⟨⟨[.op .immediate, .val (.num b),
      .op .immediate, .val (.num a), .op .greaterThan, .op .printOp], []⟩,
      [.num b, .num a], [⟨4, 0⟩], [], []⟩ =
      .ok ⟨⟨[.op .immediate, .val (.num b), .op .immediate, .val (.num a),
        .op .greaterThan, .op .printOp], []⟩, [boolLit (decide (b > a))],
        [⟨5, 0⟩], [], []⟩ := by
    simp [VmState.stepInstr, VmState.readCell, VmState.curFrame,
      VmState.setIp, VmState.execOp, VmState.cmp, VmState.pop, VmState.push,
      bind, Except.bind, List.getLast?_concat, List.dropLast_concat]
  have s4 : VmState.stepInstr ⟨⟨[.op .immediate, .val (.num b),
      .op .immediate, .val (.num a), .op .greaterThan, .op .printOp], []⟩,
      [boolLit (decide (b > a))], [⟨5, 0⟩], [], []⟩ =
      .ok ⟨⟨[.op .immediate, .val (.num b), .op .immediate, .val (.num a),
        .op .greaterThan, .op .printOp], []⟩, [], [⟨6, 0⟩], [],
        [(boolLit (decide (b > a))).display]⟩ := by
    simp [VmState.stepInstr, VmState.readCell, VmState.curFrame,
      VmState.setIp, VmState.execOp, VmState.pop, bind, Except.bind]
  have hrun : runVM 5 ⟨[.op .immediate, .val (.num b), .op .immediate,
      .val (.num a), .op .greaterThan, .op .printOp], []⟩ =
      .ok ⟨⟨[.op .immediate, .val (.num b), .op .immediate, .val (.num a),
        .op .greaterThan, .op .printOp], []⟩, [], [⟨6, 0⟩], [],
        [(boolLit (decide (b > a))).display]⟩ := by
    show runLoop (4 + 1) 6 ⟨⟨[.op .immediate, .val (.num b), .op .immediate,
      .val (.num a), .op .greaterThan, .op .printOp], []⟩, [], [⟨0, 0⟩], [],
      []⟩ = _
    rw [runLoop_step 4 _ _ _ ⟨0, 0⟩ [] rfl (show (0 : Nat) < 6 by norm_num) s1]
    rw [show (4 : Nat) = 3 + 1 from rfl]
    rw [runLoop_step 3 _ _ _ ⟨2, 0⟩ [] rfl (show (2 : Nat) < 6 by norm_num) s2]
    rw [show (3 : Nat) = 2 + 1 from rfl]
    rw [runLoop_step 2 _ _ _ ⟨4, 0⟩ [] rfl (show (4 : Nat) < 6 by norm_num) s3]
    rw [show (2 : Nat) = 1 + 1 from rfl]
    rw [runLoop_step 1 _ _ _ ⟨5, 0⟩ [] rfl (show (5 : Nat) < 6 by norm_num) s4]
    rw [show (1 : Nat) = 0 + 1 from rfl]
    rw [runLoop_halt 0 _ _ ⟨6, 0⟩ [] rfl (show ¬(6 : Nat) < 6 by norm_num)]
  rw [hrun]
  by_cases hba : b > a <;> simp [hba, boolLit, VmValue.display, Except.map]

/-! # Theorems -/

/-- C1.  The round-trip property fails: `print 1 >= 1;` is a syntactically
valid, convergent program (its token list parses to a single print
statement), the tree-walking evaluator prints `true`, but compiling the
same statement list and running the bytecode VM prints `false` — because
the compiler lowers `a >= b` to swapped operands plus `LessThan`, which
the VM evaluates as `b < a`.  The two backends' stdout differ, refuting
the claim at this input and witnessing the comparison-lowering code bug
(spec §9 flags it as such). -/
theorem c1_roundtrip_divergence_at_ge :
    parse 100 [⟨.keyword .printKw, "print"⟩, ⟨.number 1, "1"⟩,
               ⟨.greaterThanEq, ">="⟩, ⟨.number 1, "1"⟩, ⟨.semicolon, ";"⟩] =
      some (.ok [.print (.binary .greaterThanEq (.literal (.num 1))
        (.literal (.num 1)))]) ∧
    interpOutput 100
      [.print (.binary .greaterThanEq (.literal (.num 1)) (.literal (.num 1)))] =
      .ok ["true"] ∧
    vmOutput 100
      [.print (.binary .greaterThanEq (.literal (.num 1)) (.literal (.num 1)))] =
      .ok (.ok ["false"]) := by
  refine ⟨rfl, by decide, by decide⟩

/-- C2.  What the lowering actually computes: for every pair of numbers,
the bytecode compiled for `a >= b` (swapped operands, `LessThan`) prints
the truth value of `b < a` — that is `a > b`, not `!(a < b)` — and the
bytecode for `a <= b` (swapped operands, `GreaterThan`) prints `b > a`.
The claimed equivalence therefore fails at `a = b = 0`: `0 >= 0` prints
`false` although `!(0 < 0)` is `true`, and `0 <= 0` prints `false`
although `!(0 > 0)` is `true` — the code diverges from the intended
semantics the spec states (its section 9 flags exactly this bug). -/
theorem c2_comparison_lowering_bug_at_zero :
    (∀ a b : ℚ, vmOutput 5
      [.print (.binary .greaterThanEq (.literal (.num a)) (.literal (.num b)))] =
      .ok (.ok [if b < a then "true" else "false"])) ∧
    (∀ a b : ℚ, vmOutput 5
      [.print (.binary .lessThanEq (.literal (.num a)) (.literal (.num b)))] =
      .ok (.ok [if b > a then "true" else "false"])) ∧
    vmOutput 100
      [.print (.binary .greaterThanEq (.literal (.num 0)) (.literal (.num 0)))] =
      .ok (.ok ["false"]) ∧
    (!decide ((0 : ℚ) < 0)) = true ∧
    vmOutput 100
      [.print (.binary .lessThanEq (.literal (.num 0)) (.literal (.num 0)))] =
      .ok (.ok ["false"]) ∧
    (!decide ((0 : ℚ) > 0)) = true := by
  refine ⟨vm_ge_computes_flipped_lt, vm_le_computes_flipped_gt,
    by decide, by decide, by decide, by decide⟩

/-- C3.  The tree-walking evaluator does not implement `==`/`!=`: the
`Binary` eval arm for `Equal`/`BangEq` is `unimplemented!("==, !=")`, a
panic.  The spec's scenario `print 1 == 1; print 1 == "1"; print !nil;`
therefore aborts on its first statement instead of printing
`true`, `false`, `true`. -/
theorem c3_equality_unimplemented_in_evaluator :
    interpOutput 100
      [.print (.binary .equal (.literal (.num 1)) (.literal (.num 1))),
       .print (.binary .equal (.literal (.num 1)) (.literal (.str "1"))),
       .print (.unary .bang (.literal .nil))] = .error .panicked ∧
    binaryOpEval .equal (.num 1) (.num 1) = .error .panicked ∧
    binaryOpEval .bangEq (.num 1) (.num 1) = .error .panicked := by
  refine ⟨by decide, rfl, rfl⟩

/-- C4.  `VM::ret` truncates the stack and then panics
"Cannot return from top-level." unconditionally: executing `Return` is a
fatal error in EVERY frame, in particular in a frame that is not the
top-level one (here the frame stack below the current frame is
arbitrary, so the theorem covers states with two or more frames), and the
returned value is never pushed.  This contradicts the claim's (and the
panic message's own) intent that only a top-level return is fatal. -/
theorem c4_return_always_fatal (ch : Chunk) (stack : List VmValue)
    (ip ss : Nat) (below : List VmFrame) (g : List (String × VmValue))
    (out : List String)
    (h : ch.code[ip]? = some (.op .returnOp)) :
    VmState.stepInstr ⟨ch, stack, ⟨ip, ss⟩ :: below, g, out⟩ =
      .error .cannotReturnFromTopLevel := by
  simp [VmState.stepInstr, VmState.readCell, VmState.curFrame, VmState.setIp,
    h, VmState.execOp, bind, Except.bind]

/-- C4 witness: a state with two call frames (the current frame is not
top-level) whose next instruction is `Return` still dies with the
top-level-return panic. -/
theorem c4_return_always_fatal_witness :
    VmState.stepInstr ⟨⟨[.op .returnOp], []⟩, [.nil, .num 42],
      [⟨0, 1⟩, ⟨0, 0⟩], [], []⟩ = .error .cannotReturnFromTopLevel :=
  c4_return_always_fatal ⟨[.op .returnOp], []⟩ [.nil, .num 42] 0 1
    [⟨0, 0⟩] [] [] rfl

/-- C5 counterexample: executing `SetGlobal` with the name `x` absent from
the globals map is NOT a runtime error — it succeeds, installing the
binding and pushing the assigned value back.  (Global `var` declarations
compile to `SetGlobal` and rely on exactly this.) -/
theorem c5_setglobal_missing_name_succeeds :
    VmState.stepInstr ⟨⟨[.op .setGlobal, .byte 0], [.str "x"]⟩, [.num 1],
      [⟨0, 0⟩], [], []⟩ =
    .ok ⟨⟨[.op .setGlobal, .byte 0], [.str "x"]⟩, [.num 1], [⟨2, 0⟩],
      [("x", .num 1)], []⟩ := by
  rfl

/-- C5 (amended).  For a name absent from the globals map, `GetGlobal` is
a runtime error (the "undefined global" expect-panic), while `SetGlobal`
silently succeeds: it inserts the binding and pushes the assigned value
back onto the stack. -/
theorem c5_getglobal_errors_setglobal_inserts (ch : Chunk) (f : VmFrame)
    (rest : List VmFrame) (g : List (String × VmValue)) (out : List String)
    (idx : Nat) (name : String) (s : List VmValue) (v : VmValue)
    (hb : ch.code[f.ip]? = some (.byte idx))
    (hc : ch.constants[idx]? = some (.str name))
    (hg : globalsGet g name = none) :
    VmState.execOp ⟨ch, s, f :: rest, g, out⟩ .getGlobal =
      .error (.undefinedGlobal name) ∧
    VmState.execOp ⟨ch, s ++ [v], f :: rest, g, out⟩ .setGlobal =
      .ok ⟨ch, s ++ [v], ⟨f.ip + 1, f.stackStart⟩ :: rest,
        (name, v) :: g, out⟩ := by
  constructor
  · simp [VmState.execOp, VmState.readConstant, VmState.readByte,
      VmState.readCell, VmState.curFrame, VmState.setIp, hb, hc, hg,
      bind, Except.bind]
  · simp [VmState.execOp, VmState.readConstant, VmState.readByte,
      VmState.readCell, VmState.curFrame, VmState.setIp, hb, hc,
      VmState.pop, VmState.push, globalsInsert, bind, Except.bind,
      List.getLast?_concat, List.dropLast_concat]

/-- C5 witness for the amended theorem, at the concrete state with code
`[byte 0]`, pool `["x"]`, empty globals, stack `[7]`. -/
theorem c5_getglobal_errors_setglobal_inserts_witness :
    VmState.execOp ⟨⟨[.byte 0], [.str "x"]⟩, [], [⟨0, 0⟩], [], []⟩
        .getGlobal = .error (.undefinedGlobal "x") ∧
    VmState.execOp ⟨⟨[.byte 0], [.str "x"]⟩, [] ++ [.num 7], [⟨0, 0⟩], [], []⟩
        .setGlobal =
      .ok ⟨⟨[.byte 0], [.str "x"]⟩, [] ++ [.num 7], [⟨1, 0⟩],
        [("x", .num 7)], []⟩ :=
  c5_getglobal_errors_setglobal_inserts ⟨[.byte 0], [.str "x"]⟩ ⟨0, 0⟩
    [] [] [] 0 "x" [] (.num 7) rfl rfl rfl

/-- C6 counterexample: the claim that "after evaluating the block the
environment chain equals the one from before the block ... when an inner
statement propagates an error" is false: evaluating a block whose inner
statement reads the unbound variable `zzz` leaves the freshly pushed frame
(and hence a longer chain) in place, because the `?` in the block loop
returns before `pop_env` runs. -/
theorem c6_block_env_not_restored_on_error :
    (evalStmt 3 (.block [.expr (.var ⟨"zzz", .global⟩)]) Ctx.new).1.env ≠
      Ctx.new.env ∧
    (evalStmt 3 (.block [.expr (.var ⟨"zzz", .global⟩)]) Ctx.new).2 =
      .error (.undefinedVariable "zzz") := by
  constructor
  · decide
  · decide

/-- C6 (amended).  A `Block` pushes a fresh child frame and pops it on the
success path — any block that completes without error restores the
environment-chain depth — but on error propagation `pop_env` is skipped:
the concrete failing block below ends with the pushed frame still in
place (frames `[[], []]` against the initial `[[]]`). -/
theorem c6_block_pops_frame_on_success_only :
    (∀ fuel ss ctx ctx' v,
        evalStmt fuel (.block ss) ctx = (ctx', .ok v) →
        ctx'.env.frames.length = ctx.env.frames.length) ∧
    (evalStmt 3 (.block [.expr (.var ⟨"zzz", .global⟩)]) Ctx.new).1.env.frames =
      [[], []] ∧
    Ctx.new.env.frames = [[]] := by
  refine ⟨fun fuel ss ctx ctx' v h =>
    (eval_ok_frames_length fuel).1 _ _ _ _ h, by decide, rfl⟩

/-- C6 witness: the empty block at fuel 3 succeeds and the first conjunct
of the theorem applies to it. -/
theorem c6_block_pops_frame_on_success_only_witness :
    Ctx.new.env.frames.length = Ctx.new.env.frames.length :=
  c6_block_pops_frame_on_success_only.1 3 [] Ctx.new Ctx.new .void (by decide)

/-- C7.  Logical `and`/`or` short-circuit in both backends.  Evaluator:
when the left operand decides the outcome (falsy for `and`, truthy for
`or`) the whole expression returns exactly the left operand's value with
the left operand's context — the right operand is never evaluated, so
none of its side effects occur; otherwise the result is the right
operand's evaluation.  VM: the program `false and X` compiles to a
`JumpIfFalse` over `code(X)`, and running it halts with empty stack and
empty output for EVERY expression `X` — `X`'s code is never entered;
`true or X` likewise jumps over `code(X)` via the unconditional `Jump`.
-/
theorem c7_logical_shortcircuit :
    (∀ (lhs rhs : Expr) (ctx c1 : Ctx) (lv : Value),
        evalExpr lhs ctx = (c1, .ok lv) → lv.truthy = false →
        evalExpr (.logical .andOp lhs rhs) ctx = (c1, .ok lv)) ∧
    (∀ (lhs rhs : Expr) (ctx c1 : Ctx) (lv : Value),
        evalExpr lhs ctx = (c1, .ok lv) → lv.truthy = true →
        evalExpr (.logical .orOp lhs rhs) ctx = (c1, .ok lv)) ∧
    (∀ (lhs rhs : Expr) (ctx c1 : Ctx) (lv : Value),
        evalExpr lhs ctx = (c1, .ok lv) → lv.truthy = true →
        evalExpr (.logical .andOp lhs rhs) ctx = evalExpr rhs c1) ∧
    (∀ (lhs rhs : Expr) (ctx c1 : Ctx) (lv : Value),
        evalExpr lhs ctx = (c1, .ok lv) → lv.truthy = false →
        evalExpr (.logical .orOp lhs rhs) ctx = evalExpr rhs c1) ∧
    (∀ (X : Expr) (ch : Chunk),
        compileProgram [.expr (.logical .andOp (.literal .fls) X)] = .ok ch →
        ch.code.length < 65536 →
        runVM 4 ch = .ok ⟨ch, [], [⟨ch.code.length, 0⟩], [], []⟩) ∧
    (∀ (X : Expr) (ch : Chunk),
        compileProgram [.expr (.logical .orOp (.literal .tru) X)] = .ok ch →
        ch.code.length < 65536 →
        runVM 5 ch = .ok ⟨ch, [], [⟨ch.code.length, 0⟩], [], []⟩) := by
  refine ⟨?_, ?_, ?_, ?_, vm_and_shortcircuit, vm_or_shortcircuit⟩
  · intro lhs rhs ctx c1 lv h ht
    simp only [evalExpr]
    rw [h]
    simp [ht]
  · intro lhs rhs ctx c1 lv h ht
    simp only [evalExpr]
    rw [h]
    simp [ht]
  · intro lhs rhs ctx c1 lv h ht
    simp only [evalExpr]
    rw [h]
    simp [ht]
  · intro lhs rhs ctx c1 lv h ht
    simp only [evalExpr]
    rw [h]
    simp [ht]

/-- C7 witness: every conjunct applied at a concrete instance, with
`X = 1` (the compiled chunks spelled out). -/
theorem c7_logical_shortcircuit_witness :
    evalExpr (.logical .andOp (.literal .fls) (.literal (.num 1))) Ctx.new =
      (Ctx.new, .ok .fls) ∧
    evalExpr (.logical .orOp (.literal .tru) (.literal (.num 1))) Ctx.new =
      (Ctx.new, .ok .tru) ∧
    evalExpr (.logical .andOp (.literal .tru) (.literal (.num 1))) Ctx.new =
      evalExpr (.literal (.num 1)) Ctx.new ∧
    evalExpr (.logical .orOp (.literal .fls) (.literal (.num 1))) Ctx.new =
      evalExpr (.literal (.num 1)) Ctx.new ∧
    runVM 4 ⟨[.op .falseOp, .op .jumpIfFalse, .byte 7, .byte 0, .op .pop,
        .op .immediate, .val (.num 1), .op .pop], []⟩ =
      .ok ⟨⟨[.op .falseOp, .op .jumpIfFalse, .byte 7, .byte 0, .op .pop,
        .op .immediate, .val (.num 1), .op .pop], []⟩, [],
        [⟨(⟨[.op .falseOp, .op .jumpIfFalse, .byte 7, .byte 0, .op .pop,
          .op .immediate, .val (.num 1), .op .pop], []⟩ : Chunk).code.length,
          0⟩], [], []⟩ ∧
    runVM 5 ⟨[.op .trueOp, .op .jumpIfFalse, .byte 7, .byte 0, .op .jump,
        .byte 10, .byte 0, .op .pop, .op .immediate, .val (.num 1), .op .pop],
        []⟩ =
      .ok ⟨⟨[.op .trueOp, .op .jumpIfFalse, .byte 7, .byte 0, .op .jump,
        .byte 10, .byte 0, .op .pop, .op .immediate, .val (.num 1), .op .pop],
        []⟩, [],
        [⟨(⟨[.op .trueOp, .op .jumpIfFalse, .byte 7, .byte 0, .op .jump,
          .byte 10, .byte 0, .op .pop, .op .immediate, .val (.num 1),
          .op .pop], []⟩ : Chunk).code.length, 0⟩], [], []⟩ :=
  ⟨c7_logical_shortcircuit.1 _ _ Ctx.new Ctx.new .fls rfl rfl,
   c7_logical_shortcircuit.2.1 _ _ Ctx.new Ctx.new .tru rfl rfl,
   c7_logical_shortcircuit.2.2.1 _ _ Ctx.new Ctx.new .tru rfl rfl,
   c7_logical_shortcircuit.2.2.2.1 _ _ Ctx.new Ctx.new .fls rfl rfl,
   c7_logical_shortcircuit.2.2.2.2.1 (.literal (.num 1)) _ (by rfl) (by decide),
   c7_logical_shortcircuit.2.2.2.2.2 (.literal (.num 1)) _ (by rfl)
     (by decide)⟩

/-- C8.  `synchronize` consumes tokens until just past a `;` or until the
lookahead is one of the keywords `class fun var for if while return print`
or EOF (first conjunct, stated declaratively over every token stream);
`parse` accumulates the syntax errors of all statements and returns
either the full statement vector (no errors) or the accumulated error
list (second conjunct); and a program with two bad statements around a
valid one reports exactly the two errors, in order (third conjunct). -/
theorem c8_synchronize_and_parse_accumulation :
    (∀ ts : List Token, ∃ pre suf, ts = pre ++ suf ∧
      (∀ t ∈ pre, t.ty ≠ .semicolon ∧ isSyncBoundary t.ty = false) ∧
      ((suf = [] ∧ synchronize ts = []) ∨
       (∃ t rest, suf = t :: rest ∧ t.ty = .semicolon ∧
          synchronize ts = rest) ∨
       (∃ t rest, suf = t :: rest ∧ isSyncBoundary t.ty = true ∧
          synchronize ts = t :: rest))) ∧
    (∀ (fuel : Nat) (ts : List Token) (ss : List Stmt) (es : List SyntaxErr),
        parseLoop fuel ts = some (ss, es) →
        (es = [] → parse fuel ts = some (.ok ss)) ∧
        (es ≠ [] → parse fuel ts = some (.error es))) ∧
    parse 100 [⟨.plus, "+"⟩, ⟨.semicolon, ";"⟩, ⟨.keyword .printKw, "print"⟩,
        ⟨.number 1, "1"⟩, ⟨.semicolon, ";"⟩, ⟨.plus, "+"⟩, ⟨.semicolon, ";"⟩] =
      some (.error [.primaryFailure, .primaryFailure]) := by
  refine ⟨synchronize_spec, ?_, rfl⟩
  intro fuel ts ss es h
  constructor <;> intro h' <;> simp [parse, h, h']

/-- C8 witness: a well-formed program (`print 1;`) parses to its statement
vector through the accumulation property. -/
theorem c8_synchronize_and_parse_accumulation_witness :
    parse 100 [⟨.keyword .printKw, "print"⟩, ⟨.number 1, "1"⟩,
        ⟨.semicolon, ";"⟩] =
      some (.ok [.print (.literal (.num 1))]) :=
  (c8_synchronize_and_parse_accumulation.2.1 100
    [⟨.keyword .printKw, "print"⟩, ⟨.number 1, "1"⟩, ⟨.semicolon, ";"⟩]
    [.print (.literal (.num 1))] [] rfl).1 rfl

/-- C9.  A `var` declaration without an `=` initializer parses to a `Var`
statement whose initializer is the literal `nil` (both at the `var_decl`
production, for every identifier and trailing stream, and end-to-end for
`var x;`), and evaluating such a statement binds the declared name to
`nil` in the innermost frame, where `lookup` finds it. -/
theorem c9_var_decl_defaults_to_nil :
    (∀ (name sv : String) (rest : List Token) (fuel : Nat),
        parseVarDecl (fuel + 1)
            (⟨.identifier, name⟩ :: ⟨.semicolon, sv⟩ :: rest) =
          .ok (.varDecl ⟨name, .global⟩ (.literal .nil)) rest) ∧
    (∀ (fuel : Nat) (name : String) (ctx : Ctx),
        evalStmt (fuel + 1) (.varDecl ⟨name, .global⟩ (.literal .nil)) ctx =
          ({ ctx with env := ctx.env.bind name .nil }, .ok .void)) ∧
    (∀ (name : String) (ctx : Ctx),
        (ctx.env.bind name .nil).lookup name = some .nil) ∧
    parse 100 [⟨.keyword .varKw, "var"⟩, ⟨.identifier, "x"⟩,
        ⟨.semicolon, ";"⟩] =
      some (.ok [.varDecl ⟨"x", .global⟩ (.literal .nil)]) := by
  refine ⟨?_, ?_, ?_, rfl⟩
  · intro name sv rest fuel
    simp [parseVarDecl, expectTok, peekType, advanceTok]
  · intro fuel name ctx
    simp [evalStmt, evalExpr, Lit.toValue]
  · intro name ctx
    simp [Env.bind, Env.lookup, Env.frames, lookupFrames, Frame.get]

/-- C10.  A global `var` declaration compiles to the initializer's code
followed by exactly `SetGlobal` plus the pool index of the name — no
`DefineGlobal`, no trailing `Pop` — and the pool holds the name at that
index (first conjunct); executing that `SetGlobal` from any stack
`s ++ [v]` (the initializer's one computed value on top) installs the
binding and pushes the value back, leaving the stack exactly `s ++ [v]`
(second conjunct).  Together: the statement's net stack effect is the one
element the initializer pushed. -/
theorem c10_global_var_setglobal_stack_effect :
    (∀ (x : String) (e : Expr) (c c' : CState),
        compileStmt (.varDecl ⟨x, .global⟩ e) c = .ok c' →
        ∃ cE idx, compileExpr e c = .ok cE ∧
          c'.chunk.code = cE.chunk.code ++ [.op .setGlobal, .byte idx] ∧
          c'.chunk.constants[idx]? = some (.str x)) ∧
    (∀ (ch : Chunk) (f : VmFrame) (rest : List VmFrame)
        (g : List (String × VmValue)) (out : List String) (idx : Nat)
        (x : String) (s : List VmValue) (v : VmValue),
        ch.code[f.ip]? = some (.op .setGlobal) →
        ch.code[f.ip + 1]? = some (.byte idx) →
        ch.constants[idx]? = some (.str x) →
        VmState.stepInstr ⟨ch, s ++ [v], f :: rest, g, out⟩ =
          .ok ⟨ch, s ++ [v], ⟨f.ip + 2, f.stackStart⟩ :: rest,
            (x, v) :: g, out⟩) := by
  constructor
  · intro x e c c' h
    simp only [compileStmt, bind, Except.bind] at h
    split at h
    case _ e1 heq1 => simp at h
    case _ cE heq1 =>
      rcases hs : (cE.emit .setGlobal).stringConstant x with ⟨c2, idx⟩
      rw [hs] at h
      simp only [pure, Except.pure, Except.ok.injEq] at h
      subst h
      have hc := CState.stringConstant_code (cE.emit .setGlobal) x
      have hsp := CState.stringConstant_spec (cE.emit .setGlobal) x
      rw [hs] at hc hsp
      simp only at hc hsp
      refine ⟨cE, idx, heq1, ?_, ?_⟩
      · show (c2.emitByte idx).chunk.code = _
        rw [CState.emitByte_code, hc, CState.emit_code]
        simp
      · simpa using hsp
  · intro ch f rest g out idx x s v h1 h2 h3
    simp [VmState.stepInstr, VmState.readCell, VmState.curFrame,
      VmState.setIp, h1, h2, h3, VmState.execOp, VmState.readConstant,
      VmState.readByte, VmState.pop, VmState.push, globalsInsert,
      bind, Except.bind, List.getLast?_concat, List.dropLast_concat]

/-- C10 witness: `var x = 1;` compiled from a fresh compiler, and the
`SetGlobal` instruction executed at a concrete one-value stack. -/
theorem c10_global_var_setglobal_stack_effect_witness :
    (∃ cE idx,
      compileExpr (.literal (.num 1)) CState.new = .ok cE ∧
      (⟨⟨[.op .immediate, .val (.num 1), .op .setGlobal, .byte 0],
        [.str "x"]⟩, [], 0⟩ : CState).chunk.code =
        cE.chunk.code ++ [.op .setGlobal, .byte idx] ∧
      (⟨⟨[.op .immediate, .val (.num 1), .op .setGlobal, .byte 0],
        [.str "x"]⟩, [], 0⟩ : CState).chunk.constants[idx]? =
        some (.str "x")) ∧
    VmState.stepInstr ⟨⟨[.op .setGlobal, .byte 0], [.str "x"]⟩,
        [] ++ [.num 1], [⟨0, 0⟩], [], []⟩ =
      .ok ⟨⟨[.op .setGlobal, .byte 0], [.str "x"]⟩, [] ++ [.num 1],
        [⟨0 + 2, 0⟩], [("x", .num 1)], []⟩ :=
  ⟨c10_global_var_setglobal_stack_effect.1 "x" (.literal (.num 1))
    CState.new _ (by decide),
   c10_global_var_setglobal_stack_effect.2
     ⟨[.op .setGlobal, .byte 0], [.str "x"]⟩ ⟨0, 0⟩ [] [] [] 0 "x"
     [] (.num 1) rfl rfl rfl⟩

end RLox
